import Mathlib

/-!
# Mesen `Core/RomLoader.cpp`: the single-image load pipeline

A shallow embedding of `RomLoader::LoadFile` and `RomLoader::GetRomData`.
The collaborators whose code lives in other translation units (checksum,
digest, game database, file-name helper and the per-format loaders) are
fields of `Env`; the loader object is passed explicitly as a `RomLoader`
value and every call to a collaborator is recorded in a list of `Event`s.
-/

namespace Mesen

/-! ## Data model -/

/-- Modelled from the spec: the `GameSystem` enumeration (declared outside
`RomLoader.cpp`), with the four values `LoadFile` names. -/
inductive GameSystem where
  | Unknown
  | NesNtsc
  | NesPal
  | VsSystem
  deriving DecidableEq, Repr

/-- Modelled from the spec: the reconstructed header the game database hands
back (`NESHeader`, declared outside `RomLoader.cpp`), kept as its raw bytes. -/
structure NESHeader where
  bytes : List Nat
  deriving DecidableEq, Repr

/-- Modelled from the spec: `HashInfo`, the identity of an image
(`checksum32` and `digest160`); its declaration is outside `RomLoader.cpp`. -/
structure HashInfo where
  Crc32 : Nat
  Sha1 : List Char
  deriving DecidableEq, Repr

/-- Modelled from the spec: `RomInfo`, the metadata block `info` of the
record, with the fields `LoadFile` reads or writes. -/
structure RomInfo where
  RomName : List Char
  Filename : List Char
  System : GameSystem
  IsHeaderlessRom : Bool
  Hash : HashInfo
  deriving DecidableEq, Repr

/-- Modelled from the spec: `RomData`, the record of a load (`rawBytes`,
`info`, `failed`). -/
structure RomData where
  Info : RomInfo
  RawData : List Nat
  Error : Bool
  deriving DecidableEq, Repr

/-- Modelled from the spec: `VirtualFile`, the byte source. `IsValid` is what
`IsValid()` answers, `data` what `ReadFile` delivers, `fileName` and
`filePath` what `GetFileName()` and `GetFilePath()` answer. -/
structure VirtualFile where
  IsValid : Bool
  data : List Nat
  fileName : List Char
  filePath : List Char
  deriving DecidableEq, Repr

/-- The loader object: the members `LoadFile` uses. -/
structure RomLoader where
  _romData : RomData
  _filename : List Char
  _checkOnly : Bool
  deriving DecidableEq, Repr

/-- The format loaders `LoadFile` can construct. -/
inductive Parser where
  | iNes
  | Fds
  | Nsf
  | Nsfe
  | Unif
  | StudyBox
  deriving DecidableEq, Repr

/-- What `LoadFile` does to its collaborators, in program order: a line sent
to `Log`, or a `LoadRom` call on a format loader, with the constructor
argument of the loader (`none` for a default-constructed one) and the header
pointer passed (`none` for `nullptr` or for a loader that takes no header). -/
inductive Event where
  | Log (msg : List Char)
  | LoadRom (parser : Parser) (ctorArg : Option Bool) (header : Option NESHeader)
  deriving DecidableEq, Repr

/-- The collaborators of `LoadFile` that are defined in other files. Each
format loader gets the record by reference, so it is a function from the
record before the call to the record after it; the buffer argument is the
record's own `RawData` (`fileData` is a reference to it). -/
structure Env where
  /-- The collaborator `CRC32::GetCRC`. -/
  GetCRC : List Nat → Nat
  /-- The collaborator `SHA1::GetHash`. -/
  GetHash : List Nat → List Char
  /-- The collaborator `FolderUtilities::GetFilename(path, includeExtension)`. -/
  GetFilename : List Char → Bool → List Char
  /-- The collaborator `GameDatabase::GetiNesHeader`: `none` when it returns false. -/
  GetiNesHeader : Nat → Option NESHeader
  /-- The collaborator `iNesLoader::LoadRom(romData, romFile, preloadedHeader)`. -/
  iNesLoader : Option Bool → RomData → List Nat → Option NESHeader → RomData
  /-- The collaborator `FdsLoader::LoadRom(romData, romFile)`. -/
  FdsLoader : Bool → RomData → List Nat → RomData
  /-- The collaborator `NsfLoader::LoadRom(romData, romFile)`. -/
  NsfLoader : Bool → RomData → List Nat → RomData
  /-- The collaborator `NsfeLoader::LoadRom(romData, romFile)`. -/
  NsfeLoader : Bool → RomData → List Nat → RomData
  /-- The collaborator `UnifLoader::LoadRom(romData, romFile)`. -/
  UnifLoader : Bool → RomData → List Nat → RomData
  /-- The collaborator `StudyBoxLoader::LoadRom(romData, romFile, filePath)`. -/
  StudyBoxLoader : Bool → RomData → List Nat → List Char → RomData

/-! ## Library functions used by `LoadFile` -/

/-- The bytes of an ASCII literal. -/
def bytes (s : List Char) : List Nat := s.map Char.toNat

/-- The test `memcmp(buf, pat, n) == 0`: the first `n` bytes of both agree. The C
function reads `n` bytes of each argument, so `n ≤ buf.length` is its
precondition. -/
def memcmp (buf pat : List Nat) (n : Nat) : Bool :=
  decide (buf.take n = pat.take n)

/-- The call `std::transform(..., ::tolower)`: every character lower-cased. -/
def tolower (s : List Char) : List Char := s.map Char.toLower

/-- The call `std::string::find(pat)`: the first position at which `pat` occurs,
`none` for `npos`. -/
def find : List Char → List Char → Option Nat
  | [], pat => if pat.isEmpty then some 0 else none
  | c :: t, pat =>
    if pat.isPrefixOf (c :: t) then some 0 else (find t pat).map (· + 1)

/-! ## `RomLoader` -/

/-- Modelled from the spec: the record a newly constructed loader holds
(`RomData`'s default member values are declared outside `RomLoader.cpp`):
nothing populated and `system` `Unknown`. `Error` starts `false`: `LoadFile`
only ever sets it to `true` and returns its negation as the success result. -/
def RomData.fresh : RomData :=
  { Info := { RomName := [], Filename := [], System := GameSystem.Unknown,
              IsHeaderlessRom := false, Hash := { Crc32 := 0, Sha1 := [] } },
    RawData := [], Error := false }

/-- Modelled from the spec: `RomLoader loader(checkOnly)`, a new loader. -/
def RomLoader.create (checkOnly : Bool) : RomLoader :=
  { _romData := RomData.fresh, _filename := [], _checkOnly := checkOnly }

/-- The signature dispatch of `LoadFile` (the `if`/`else if` chain over
`memcmp` and its final `else`): the record after the selected loader ran,
the value of `skipSha1Hash`, and the calls made. `romData` already holds the
buffer and the checksum `crc`. -/
def LoadFile.dispatch (env : Env) (checkOnly : Bool) (romData : RomData) (crc : Nat)
    (romFile : VirtualFile) : RomData × Bool × List Event :=
  let fileData := romData.RawData
  if memcmp fileData (bytes ['N', 'E', 'S'] ++ [0x1a]) 4 then
    (env.iNesLoader (some checkOnly) romData fileData none, false,
      [Event.LoadRom Parser.iNes (some checkOnly) none])
  else if memcmp fileData (bytes ['F', 'D', 'S'] ++ [0x1a]) 4
      || memcmp fileData
        ([0x1] ++ bytes ['*', 'N', 'I', 'N', 'T', 'E', 'N', 'D', 'O', '-', 'H', 'V', 'C', '*']) 15 then
    (env.FdsLoader checkOnly romData fileData, false,
      [Event.LoadRom Parser.Fds (some checkOnly) none])
  else if memcmp fileData (bytes ['N', 'E', 'S', 'M'] ++ [0x1a]) 5 then
    (env.NsfLoader checkOnly romData fileData, false,
      [Event.LoadRom Parser.Nsf (some checkOnly) none])
  else if memcmp fileData (bytes ['N', 'S', 'F', 'E']) 4 then
    (env.NsfeLoader checkOnly romData fileData, false,
      [Event.LoadRom Parser.Nsfe (some checkOnly) none])
  else if memcmp fileData (bytes ['U', 'N', 'I', 'F']) 4 then
    (env.UnifLoader checkOnly romData fileData, false,
      [Event.LoadRom Parser.Unif (some checkOnly) none])
  else if memcmp fileData (bytes ['S', 'T', 'B', 'X']) 4 then
    (env.StudyBoxLoader checkOnly romData fileData romFile.filePath, true,
      [Event.LoadRom Parser.StudyBox (some checkOnly) none])
  else
    match env.GetiNesHeader crc with
    | some header =>
      let r := env.iNesLoader none romData fileData (some header)
      ({ r with Info := { r.Info with IsHeaderlessRom := true } }, false,
        [Event.Log "[DB] Headerless ROM file found - using game database data.".toList,
         Event.LoadRom Parser.iNes none (some header)])
    | none =>
      ({ romData with Error := true }, false, [Event.Log "Invalid rom file.".toList])

/-- The method `bool RomLoader::LoadFile(VirtualFile &romFile)`: the value returned, the
loader afterwards, and the calls made to `Log` and to the format loaders. -/
def LoadFile (env : Env) (ldr : RomLoader) (romFile : VirtualFile) :
    Bool × RomLoader × List Event :=
  if !romFile.IsValid then
    (false, ldr, [])
  else
    -- romFile.ReadFile(fileData), fileData being _romData.RawData
    let rd0 : RomData := { ldr._romData with RawData := romFile.data }
    if rd0.RawData.length < 15 then
      (false, { ldr with _romData := rd0 }, [])
    else
      let filename := romFile.fileName
      let romName := env.GetFilename filename true
      let crc := env.GetCRC rd0.RawData
      let rd1 : RomData :=
        { rd0 with Info := { rd0.Info with Hash := { rd0.Info.Hash with Crc32 := crc } } }
      let log := [Event.Log [], Event.Log ("Loading rom: ".toList ++ romName)]
      let (rd2, skipSha1Hash, calls) := LoadFile.dispatch env ldr._checkOnly rd1 crc romFile
      let rd3 : RomData :=
        if !skipSha1Hash then
          { rd2 with Info := { rd2.Info with
              Hash := { rd2.Info.Hash with Sha1 := env.GetHash rd2.RawData } } }
        else rd2
      let rd4 : RomData :=
        { rd3 with Info := { rd3.Info with RomName := romName, Filename := filename } }
      let rd5 : RomData :=
        if rd4.Info.System = GameSystem.Unknown then
          let name := tolower rd4.Info.Filename
          if (find name ['(', 'e', ')']).isSome
              || (find name ['(', 'a', 'u', 's', 't', 'r', 'a', 'l', 'i', 'a', ')']).isSome
              || (find name ['(', 'e', 'u', 'r', 'o', 'p', 'e', ')']).isSome
              || (find name ['(', 'g', 'e', 'r', 'm', 'a', 'n', 'y', ')']).isSome
              || (find name ['(', 's', 'p', 'a', 'i', 'n', ')']).isSome then
            { rd4 with Info := { rd4.Info with System := GameSystem.NesPal } }
          else if (find name ['(', 'v', 's', ')']).isSome then
            { rd4 with Info := { rd4.Info with System := GameSystem.VsSystem } }
          else
            { rd4 with Info := { rd4.Info with System := GameSystem.NesNtsc } }
        else rd4
      (!rd5.Error, { _romData := rd5, _filename := filename, _checkOnly := ldr._checkOnly },
        log ++ calls)

/-- The method `RomData RomLoader::GetRomData()`. -/
def GetRomData (ldr : RomLoader) : RomData := ldr._romData

/-! ## The specification's view of the dispatcher -/

/-- The signature table as the specification writes it: each row gives the
byte patterns of one format and the loader selected for it. -/
def signatureTable : List (List (List Nat) × Parser) :=
  [ ([bytes ['N', 'E', 'S'] ++ [0x1a]], Parser.iNes),
    ([bytes ['F', 'D', 'S'] ++ [0x1a],
      [0x1] ++ bytes ['*', 'N', 'I', 'N', 'T', 'E', 'N', 'D', 'O', '-', 'H', 'V', 'C', '*']],
      Parser.Fds),
    ([bytes ['N', 'E', 'S', 'M'] ++ [0x1a]], Parser.Nsf),
    ([bytes ['N', 'S', 'F', 'E']], Parser.Nsfe),
    ([bytes ['U', 'N', 'I', 'F']], Parser.Unif),
    ([bytes ['S', 'T', 'B', 'X']], Parser.StudyBox) ]

/-- A row of the table matches a buffer when one of its patterns is a prefix
of the buffer. -/
def rowMatches (buf : List Nat) (row : List (List Nat) × Parser) : Bool :=
  row.1.any (fun pat => decide (pat <+: buf))

/-- First-match lookup in a table of signatures. -/
def selectParser (table : List (List (List Nat) × Parser)) (buf : List Nat) :
    Option Parser :=
  (table.find? (rowMatches buf)).map Prod.snd

/-- The tags of the region heuristic that stand for a PAL image, in the order
the specification lists them. -/
def palTags : List (List Char) :=
  [ ['(', 'e', ')'],
    ['(', 'a', 'u', 's', 't', 'r', 'a', 'l', 'i', 'a', ')'],
    ['(', 'g', 'e', 'r', 'm', 'a', 'n', 'y', ')'],
    ['(', 's', 'p', 'a', 'i', 'n', ')'],
    ['(', 'e', 'u', 'r', 'o', 'p', 'e', ')'] ]

/-- The region heuristic as the specification words it: lower-case the path;
a PAL tag gives the PAL system, else `(vs)` the arcade system, else NTSC. -/
def inferRegion (path : List Char) : GameSystem :=
  let lc := path.map Char.toLower
  if ∃ tag ∈ palTags, tag <:+: lc then GameSystem.NesPal
  else if ['(', 'v', 's', ')'] <:+: lc then GameSystem.VsSystem
  else GameSystem.NesNtsc

/-- The `LoadRom` calls among the events of a load. -/
def loadRomCalls (evs : List Event) : List Event :=
  evs.filter (fun e => match e with
    | Event.LoadRom _ _ _ => true
    | Event.Log _ => false)

/-- The loaders called through the signature chain: the `LoadRom` calls that
pass no header, each with the constructor argument of its loader. -/
def signatureCalls (evs : List Event) : List (Parser × Option Bool) :=
  evs.filterMap (fun e => match e with
    | Event.LoadRom p c none => some (p, c)
    | _ => none)

/-- The record as it stands when the signature dispatch starts: the buffer
read and its checksum stored. -/
def LoadFile.prepared (env : Env) (ldr : RomLoader) (romFile : VirtualFile) : RomData :=
  { ldr._romData with
    RawData := romFile.data
    Info := { ldr._romData.Info with
      Hash := { ldr._romData.Info.Hash with Crc32 := env.GetCRC romFile.data } } }

/-- The record the dispatch of a load leaves: what the selected loader (or
the fallback) made of the prepared record. -/
def LoadFile.parsed (env : Env) (ldr : RomLoader) (romFile : VirtualFile) : RomData :=
  (LoadFile.dispatch env ldr._checkOnly (LoadFile.prepared env ldr romFile)
    (env.GetCRC romFile.data) romFile).1

/-! ## A concrete environment, for evaluating the definitions -/

/-- A small environment: additive checksum, a digest that spells the bytes
as letters, a database knowing one checksum, and loaders that only set the
system (the cartridge loader from the header when one is passed). -/
def demoEnv : Env where
  GetCRC := fun d => d.sum % 2 ^ 32
  GetHash := fun d => d.map (fun b => Char.ofNat (97 + b % 26))
  GetFilename := fun path _ => path
  GetiNesHeader := fun crc => if crc = 15 then some ⟨[78, 69, 83, 26]⟩ else none
  iNesLoader := fun _ rd _ h =>
    match h with
    | some _ => { rd with Info := { rd.Info with System := GameSystem.NesPal } }
    | none => rd
  FdsLoader := fun _ rd _ => { rd with Info := { rd.Info with System := GameSystem.NesNtsc } }
  NsfLoader := fun _ rd _ => rd
  NsfeLoader := fun _ rd _ => rd
  UnifLoader := fun _ rd _ => rd
  StudyBoxLoader := fun _ rd _ _ => rd

/-- A readable byte source holding `data`, named `name`. -/
def fileOf (name : List Char) (data : List Nat) : VirtualFile :=
  { IsValid := true, data := data, fileName := name, filePath := name }

/-- A closed form of the tail of `LoadFile`, after the dispatch: the digest
unless skipped, the two names, and `inferRegion` on a system still `Unknown`.
`LoadFile` itself spells the heuristic out as the source does; `LoadFile_ok`
proves that it computes this record. -/
def LoadFile.finish (env : Env) (filename : List Char) (rd2 : RomData)
    (skipSha1Hash : Bool) : RomData :=
  let rd3 : RomData :=
    if skipSha1Hash then rd2
    else { rd2 with Info := { rd2.Info with
            Hash := { rd2.Info.Hash with Sha1 := env.GetHash rd2.RawData } } }
  { rd3 with Info := { rd3.Info with
      RomName := env.GetFilename filename true
      Filename := filename
      System := if rd3.Info.System = GameSystem.Unknown then inferRegion filename
                else rd3.Info.System } }

/-- The format loaders leave the checksum stored in the record alone. -/
def Env.KeepsCrc32 (env : Env) : Prop :=
  (∀ c rd d h, (env.iNesLoader c rd d h).Info.Hash.Crc32 = rd.Info.Hash.Crc32) ∧
  (∀ c rd d, (env.FdsLoader c rd d).Info.Hash.Crc32 = rd.Info.Hash.Crc32) ∧
  (∀ c rd d, (env.NsfLoader c rd d).Info.Hash.Crc32 = rd.Info.Hash.Crc32) ∧
  (∀ c rd d, (env.NsfeLoader c rd d).Info.Hash.Crc32 = rd.Info.Hash.Crc32) ∧
  (∀ c rd d, (env.UnifLoader c rd d).Info.Hash.Crc32 = rd.Info.Hash.Crc32) ∧
  (∀ c rd d path, (env.StudyBoxLoader c rd d path).Info.Hash.Crc32 = rd.Info.Hash.Crc32)

/-- A readable source of four bytes, below the 15-byte floor. -/
def shortFile : VirtualFile := fileOf ['a', '.', 'n', 'e', 's'] [0x4e, 0x45, 0x53, 0x1a]

/-- A source that cannot be read. -/
def unreadableFile : VirtualFile :=
  { IsValid := false, data := [], fileName := ['a', '.', 'n', 'e', 's'],
    filePath := ['a', '.', 'n', 'e', 's'] }

/-- A cartridge image with the `NES 0x1A` signature, 16 bytes long. -/
def nesFile : VirtualFile :=
  fileOf ['M', 'a', 'r', 'i', 'o', ' ', '(', 'E', ')', '.', 'n', 'e', 's']
    [0x4e, 0x45, 0x53, 0x1a, 1, 1, 0, 0, 0, 0, 0, 0, 0, 0, 0, 0]

/-- A readable 16-byte buffer with no known signature and a checksum the
database of `demoEnv` does not know, under a name carrying a PAL tag. -/
def unknownFile : VirtualFile :=
  fileOf ['G', 'a', 'm', 'e', ' ', '(', 'E', ')', '.', 'b', 'i', 'n'] (List.replicate 16 1)

/-- A readable 15-byte buffer with no known signature whose checksum the
database of `demoEnv` knows. -/
def headerlessFile : VirtualFile :=
  fileOf ['G', 'a', 'm', 'e', '.', 'b', 'i', 'n'] (List.replicate 15 1)

/-- A media-archive image: the `STBX` signature and twelve more bytes. -/
def studyBoxFile : VirtualFile :=
  fileOf ['t', 'a', 'p', 'e', '.', 's', 't', 'u', 'd', 'y', 'b', 'o', 'x']
    (bytes ['S', 'T', 'B', 'X'] ++ [0, 0, 0, 16, 1, 2, 3, 4, 5, 6, 7, 8])

/-- A cartridge image with the `NES 0x1A` signature whose name carries both
the arcade tag and a PAL tag, in mixed case. -/
def vsEuropeFile : VirtualFile :=
  fileOf ['D', 'u', 'c', 'k', ' ', '(', 'V', 'S', ')', ' ', '(', 'E', 'u', 'r', 'o', 'p', 'e', ')',
      '.', 'n', 'e', 's']
    [0x4e, 0x45, 0x53, 0x1a, 1, 1, 0, 0, 0, 0, 0, 0, 0, 0, 0, 0]

/-- A disk image with the `FDS 0x1A` signature whose name carries a PAL tag. -/
def fdsFile : VirtualFile :=
  fileOf ['Z', 'e', 'l', 'd', 'a', ' ', '(', 'E', ')', '.', 'f', 'd', 's']
    [0x46, 0x44, 0x53, 0x1a, 1, 0, 0, 0, 0, 0, 0, 0, 0, 0, 0, 0]

/-! ## The matcher: `FindMatchingRomInFile` and `FindMatchingRom` -/

/-- Modelled from the spec: the constant `RomLoader::MaxFilesToCheck` (declared
outside `RomLoader.cpp`), the fixed ceiling of 100 that the log line of
`FindMatchingRom` also names. -/
def MaxFilesToCheck : Nat := 100

/-- Modelled from the spec: an opened archive (`ArchiveReader`), as the list
`GetFileList(VirtualFile::RomExtensions)` returns. -/
structure ArchiveReader where
  GetFileList : List (List Char)
  deriving DecidableEq, Repr

/-- Modelled from the spec: what the matcher asks of the file system. The
code behind these calls lives outside `RomLoader.cpp`. -/
structure FileSystem where
  /-- The call `ArchiveReader::GetReader(filePath)`: `none` for a null reader. -/
  GetReader : List Char → Option ArchiveReader
  /-- The construction `VirtualFile file = filePath`. -/
  file : List Char → VirtualFile
  /-- The construction `VirtualFile innerFile(filePath, file)`. -/
  innerFile : List Char → List Char → VirtualFile
  /-- The string that `return innerFile` converts the inner file to. -/
  innerPath : List Char → List Char → List Char

/-- What the matcher does, in program order: a call of
`FindMatchingRomInFile` on a candidate, a call of `LoadFile` on a byte
source, each with the value `iterationCount` has at that moment, and the
log line of `FindMatchingRom` when it gives up. -/
inductive SearchEvent where
  | Verify (filePath : List Char) (iterationCount : Nat)
  | Load (file : VirtualFile) (iterationCount : Nat)
  | GiveUp
  deriving DecidableEq, Repr

/-- The test of both `if`s inside `FindMatchingRomInFile`:
`hashInfo.Crc32 == crc || hashInfo.Sha1.compare(sha1) == 0`. -/
def hashMatches (hashInfo : HashInfo) (romData : RomData) : Bool :=
  decide (hashInfo.Crc32 = romData.Info.Hash.Crc32)
    || decide (hashInfo.Sha1 = romData.Info.Hash.Sha1)

/-- The `for` loop of `FindMatchingRomInFile` over the entries of an archive:
the string returned (empty when the loop ends or breaks), `iterationCount`
afterwards, and the events. -/
def FindMatchingRomInFile.entries (env : Env) (fs : FileSystem) (filePath : List Char)
    (hashInfo : HashInfo) : List (List Char) → Nat → List Char × Nat × List SearchEvent
  | [], iterationCount => ([], iterationCount, [])
  | file :: rest, iterationCount =>
    let innerFile := fs.innerFile filePath file
    let loaded := LoadFile env (RomLoader.create true) innerFile
    if loaded.1 then
      if hashMatches hashInfo loaded.2.1._romData then
        (fs.innerPath filePath file, iterationCount, [SearchEvent.Load innerFile iterationCount])
      else if iterationCount + 1 > MaxFilesToCheck then
        ([], iterationCount + 1, [SearchEvent.Load innerFile iterationCount])
      else
        let r := FindMatchingRomInFile.entries env fs filePath hashInfo rest (iterationCount + 1)
        (r.1, r.2.1, SearchEvent.Load innerFile iterationCount :: r.2.2)
    else
      let r := FindMatchingRomInFile.entries env fs filePath hashInfo rest iterationCount
      (r.1, r.2.1, SearchEvent.Load innerFile iterationCount :: r.2.2)

/-- The method `string RomLoader::FindMatchingRomInFile(string filePath,
HashInfo hashInfo, int &iterationCount)`: the string returned,
`iterationCount` afterwards, and the events. -/
def FindMatchingRomInFile (env : Env) (fs : FileSystem) (filePath : List Char)
    (hashInfo : HashInfo) (iterationCount : Nat) : List Char × Nat × List SearchEvent :=
  match fs.GetReader filePath with
  | some reader =>
    let r := FindMatchingRomInFile.entries env fs filePath hashInfo reader.GetFileList
      iterationCount
    (r.1, r.2.1, SearchEvent.Verify filePath iterationCount :: r.2.2)
  | none =>
    let file := fs.file filePath
    let loaded := LoadFile env (RomLoader.create true) file
    if loaded.1 then
      if hashMatches hashInfo loaded.2.1._romData then
        (filePath, iterationCount,
          [SearchEvent.Verify filePath iterationCount, SearchEvent.Load file iterationCount])
      else
        ([], iterationCount + 1,
          [SearchEvent.Verify filePath iterationCount, SearchEvent.Load file iterationCount])
    else
      ([], iterationCount + 1,
        [SearchEvent.Verify filePath iterationCount, SearchEvent.Load file iterationCount])

/-- The `for` loop of the fast search in `FindMatchingRom`; `lcRomFile` is the
lower-cased `romFilename`. -/
def FindMatchingRom.fast (env : Env) (fs : FileSystem) (lcRomFile : List Char)
    (hashInfo : HashInfo) : List (List Char) → Nat → List Char × Nat × List SearchEvent
  | [], iterationCount => ([], iterationCount, [])
  | currentFile :: rest, iterationCount =>
    let lcCurrentFile := tolower currentFile
    if (find lcCurrentFile lcRomFile).isSome
        && decide (env.GetFilename lcRomFile true = env.GetFilename lcCurrentFile true) then
      let m := FindMatchingRomInFile env fs currentFile hashInfo iterationCount
      if !m.1.isEmpty then m
      else
        let r := FindMatchingRom.fast env fs lcRomFile hashInfo rest m.2.1
        (r.1, r.2.1, m.2.2 ++ r.2.2)
    else FindMatchingRom.fast env fs lcRomFile hashInfo rest iterationCount

/-- The `for` loop of the slow search in `FindMatchingRom`. -/
def FindMatchingRom.slow (env : Env) (fs : FileSystem) (hashInfo : HashInfo) :
    List (List Char) → Nat → List Char × Nat × List SearchEvent
  | [], iterationCount => ([], iterationCount, [])
  | romFile :: rest, iterationCount =>
    let m := FindMatchingRomInFile env fs romFile hashInfo iterationCount
    if !m.1.isEmpty then m
    else if m.2.1 + 1 > MaxFilesToCheck then
      ([], m.2.1 + 1, m.2.2 ++ [SearchEvent.GiveUp])
    else
      let r := FindMatchingRom.slow env fs hashInfo rest (m.2.1 + 1)
      (r.1, r.2.1, m.2.2 ++ r.2.2)

/-- The method `string RomLoader::FindMatchingRom(vector<string> romFiles,
string romFilename, HashInfo hashInfo, bool useFastSearch)`: the string
returned, the final value of the local `iterationCount`, and the events. -/
def FindMatchingRom (env : Env) (fs : FileSystem) (romFiles : List (List Char))
    (romFilename : List Char) (hashInfo : HashInfo) (useFastSearch : Bool) :
    List Char × Nat × List SearchEvent :=
  let iterationCount := 0
  if useFastSearch then
    let lcRomFile := tolower romFilename
    FindMatchingRom.fast env fs lcRomFile hashInfo romFiles iterationCount
  else
    FindMatchingRom.slow env fs hashInfo romFiles iterationCount

/-! ## Reading the events of a search -/

/-- The byte sources `LoadFile` was called on, in order. -/
def loadsOf (evs : List SearchEvent) : List VirtualFile :=
  evs.filterMap (fun e => match e with
    | SearchEvent.Load f _ => some f
    | _ => none)

/-- The candidates `FindMatchingRomInFile` was called on, in order. -/
def verifiedOf (evs : List SearchEvent) : List (List Char) :=
  evs.filterMap (fun e => match e with
    | SearchEvent.Verify c _ => some c
    | _ => none)

/-- The values of `iterationCount` at which a candidate was verified or a
byte source loaded. -/
def countsOf (evs : List SearchEvent) : List Nat :=
  evs.filterMap (fun e => match e with
    | SearchEvent.Verify _ n => some n
    | SearchEvent.Load _ n => some n
    | SearchEvent.GiveUp => none)

/-- A byte source is a verified match for a target: a new check-only loader
loads it successfully and its checksum or its digest is the target's. -/
def isMatch (env : Env) (hashInfo : HashInfo) (f : VirtualFile) : Bool :=
  (LoadFile env (RomLoader.create true) f).1
    && hashMatches hashInfo (LoadFile env (RomLoader.create true) f).2.1._romData

/-- The name test of the fast search in closed form: the lower-cased path
contains the lower-cased `romFilename`, and `GetFilename(.., true)` gives the
same base name for both lower-cased strings. `nameFilter_eq` proves that this
is the condition the loop of `FindMatchingRom` evaluates. -/
def passesNameFilter (env : Env) (romFilename : List Char) (path : List Char) : Bool :=
  decide (tolower romFilename <:+: tolower path)
    && decide (env.GetFilename (tolower path) true = env.GetFilename (tolower romFilename) true)

/-- The name filter of the fast search as the specification words it: the
path, compared case-insensitively, contains the target name, and the base
name of the path exactly equals the base name of the target name. -/
def specNameFilter (env : Env) (romFilename : List Char) (path : List Char) : Bool :=
  decide (tolower romFilename <:+: tolower path)
    && decide (env.GetFilename path true = env.GetFilename romFilename true)

/-! ## A concrete file system, for evaluating the matcher -/

/-- Modelled from the spec: `FolderUtilities::GetFilename(path, true)` (defined
outside `RomLoader.cpp`), the path "stripped of directory and extension". -/
def baseName (path : List Char) : List Char :=
  let name := (path.reverse.takeWhile (fun c => c != '/')).reverse
  match name.reverse.dropWhile (fun c => c != '.') with
  | [] => name
  | _ :: stem => stem.reverse

/-- The environment `demoEnv` with `baseName` for `GetFilename`. -/
def matchEnv : Env := { demoEnv with GetFilename := fun path _ => baseName path }

/-- A small file system. Three paths are archives: `big.zip` holds 150
entries too short to load, `x/foo.zip` holds 101 loadable cartridge images,
`mix.zip` one of each. Every other path is a plain file: `empty.nes` cannot
be loaded, `tape.studybox` is a media-archive image, the rest are cartridge
images of 16 bytes. -/
def demoFs : FileSystem where
  GetReader := fun p =>
    if p = "big.zip".toList then some ⟨List.replicate 150 "bad".toList⟩
    else if p = "x/foo.zip".toList then some ⟨List.replicate 101 "ok.nes".toList⟩
    else if p = "mix.zip".toList then some ⟨["bad".toList, "ok.nes".toList]⟩
    else none
  file := fun p =>
    if p = "empty.nes".toList then fileOf p []
    else if p = "tape.studybox".toList then fileOf p studyBoxFile.data
    else fileOf p nesFile.data
  innerFile := fun p e =>
    { IsValid := true, data := if e = "bad".toList then [1] else nesFile.data,
      fileName := e, filePath := p }
  innerPath := fun p e => p ++ [Char.ofNat 1] ++ e

/-- A target identity that no file of `demoFs` has. -/
def strangerHash : HashInfo := { Crc32 := 4000000000, Sha1 := "none".toList }

/-- A target identity with the checksum of the cartridge images of `demoFs`
and a digest none of them has. -/
def crcOnlyHash : HashInfo := { Crc32 := 258, Sha1 := "none".toList }

/-- A target identity with the digest of the cartridge images of `demoFs`
and a checksum none of them has. -/
def sha1OnlyHash : HashInfo :=
  { Crc32 := 4000000000, Sha1 := demoEnv.GetHash nesFile.data }

/-- A target identity whose digest is empty. -/
def emptyDigestHash : HashInfo := { Crc32 := 4000000000, Sha1 := [] }

/-- The string `name` names the byte source `f` among the candidates: a
plain-file candidate and its file, or an entry of a candidate archive, rendered
as the matcher returns it. -/
def Names (fs : FileSystem) (candidates : List (List Char)) (name : List Char)
    (f : VirtualFile) : Prop :=
  ∃ c ∈ candidates,
    (fs.GetReader c = none ∧ name = c ∧ f = fs.file c) ∨
    (∃ reader, fs.GetReader c = some reader ∧
      ∃ e ∈ reader.GetFileList, name = fs.innerPath c e ∧ f = fs.innerFile c e)

/-- The outcome of a search is the first verified match: a non-empty result
names the byte source loaded last, that load is a verified match and no
earlier load was one; an empty result comes with no verified match among the
loads made. -/
def FirstMatch (env : Env) (hashInfo : HashInfo) (N : List Char → VirtualFile → Prop)
    (r : List Char × Nat × List SearchEvent) : Prop :=
  (r.1 ≠ [] → ∃ pre f, loadsOf r.2.2 = pre ++ [f] ∧ N r.1 f ∧
      isMatch env hashInfo f = true ∧ ∀ g ∈ pre, isMatch env hashInfo g = false) ∧
  (r.1 = [] → ∀ g ∈ loadsOf r.2.2, isMatch env hashInfo g = false)

/-- A non-empty result comes from the load made last, and that load is a
verified match. -/
def EndsInMatch (env : Env) (hashInfo : HashInfo) (r : List Char × Nat × List SearchEvent) :
    Prop :=
  r.1 ≠ [] → ∃ pre f, loadsOf r.2.2 = pre ++ [f] ∧ isMatch env hashInfo f = true

/-- Every candidate verified and every byte source loaded was met with
`iterationCount` at most the ceiling, and a returned match leaves
`iterationCount` at most the ceiling. -/
def WithinBudget (r : List Char × Nat × List SearchEvent) : Prop :=
  (∀ k ∈ countsOf r.2.2, k ≤ MaxFilesToCheck) ∧ (r.1 ≠ [] → r.2.1 ≤ MaxFilesToCheck)

/-! ## The signature chain with its reads checked -/

/-- The test `memcmp(buf, pat, n) == 0` with its reads checked: `none` when
the buffer or the pattern has fewer than `n` bytes, so that the comparison
would read outside of it. -/
def memcmpChecked (buf pat : List Nat) (n : Nat) : Option Bool :=
  if n ≤ buf.length ∧ n ≤ pat.length then some (memcmp buf pat n) else none

/-- The comparisons of the `if`/`else if` chain of `LoadFile`, in the order
the program evaluates them (`||` and `else if` stop at the first success),
each with its reads checked: the loader the chain selects (`none` for the
final `else`), or `none` when a comparison reads outside the buffer. -/
def LoadFile.signatureChain (fileData : List Nat) : Option (Option Parser) :=
  (memcmpChecked fileData (bytes ['N', 'E', 'S'] ++ [0x1a]) 4).bind fun isNes =>
  if isNes then some (some Parser.iNes) else
  (memcmpChecked fileData (bytes ['F', 'D', 'S'] ++ [0x1a]) 4).bind fun isFds =>
  (if isFds then some true else
    memcmpChecked fileData
      ([0x1] ++ bytes ['*', 'N', 'I', 'N', 'T', 'E', 'N', 'D', 'O', '-', 'H', 'V', 'C', '*'])
      15).bind fun isDisk =>
  if isDisk then some (some Parser.Fds) else
  (memcmpChecked fileData (bytes ['N', 'E', 'S', 'M'] ++ [0x1a]) 5).bind fun isNsf =>
  if isNsf then some (some Parser.Nsf) else
  (memcmpChecked fileData (bytes ['N', 'S', 'F', 'E']) 4).bind fun isNsfe =>
  if isNsfe then some (some Parser.Nsfe) else
  (memcmpChecked fileData (bytes ['U', 'N', 'I', 'F']) 4).bind fun isUnif =>
  if isUnif then some (some Parser.Unif) else
  (memcmpChecked fileData (bytes ['S', 'T', 'B', 'X']) 4).bind fun isStbx =>
  if isStbx then some (some Parser.StudyBox) else some none

/-! ## Library lemmas -/

theorem memcmp_eq_true_iff (buf pat : List Nat) (n : Nat) (hn : pat.length = n) :
    memcmp buf pat n = true ↔ pat <+: buf := by
  unfold memcmp
  rw [decide_eq_true_iff, ← hn, List.take_length, List.prefix_iff_eq_take]
  exact eq_comm

theorem find_isSome_iff (s pat : List Char) :
    (find s pat).isSome = true ↔ pat <:+: s := by
  induction s with
  | nil =>
    cases pat <;> simp [find]
  | cons c t ih =>
    unfold find
    by_cases hp : pat.isPrefixOf (c :: t) = true
    · rw [if_pos hp]
      have : pat <+: c :: t := List.isPrefixOf_iff_prefix.mp hp
      simp [this.isInfix]
    · rw [if_neg hp]
      have hnp : ¬ pat <+: c :: t := fun h => hp (List.isPrefixOf_iff_prefix.mpr h)
      rw [List.infix_cons_iff]
      simp [Option.isSome_map, ih, hnp]

/-! ## `LoadFile` path by path -/

/-- The condition chain of the heuristic in `LoadFile` computes `inferRegion`. -/
theorem region_chain_eq (filename : List Char) :
    (if (find (tolower filename) ['(', 'e', ')']).isSome
        || (find (tolower filename) ['(', 'a', 'u', 's', 't', 'r', 'a', 'l', 'i', 'a', ')']).isSome
        || (find (tolower filename) ['(', 'e', 'u', 'r', 'o', 'p', 'e', ')']).isSome
        || (find (tolower filename) ['(', 'g', 'e', 'r', 'm', 'a', 'n', 'y', ')']).isSome
        || (find (tolower filename) ['(', 's', 'p', 'a', 'i', 'n', ')']).isSome then
        GameSystem.NesPal
      else if (find (tolower filename) ['(', 'v', 's', ')']).isSome then GameSystem.VsSystem
      else GameSystem.NesNtsc) = inferRegion filename := by
  simp only [inferRegion, palTags, tolower, Bool.or_eq_true, find_isSome_iff,
    List.mem_cons, List.mem_singleton, List.not_mem_nil, or_false, exists_eq_or_imp,
    exists_eq_left]
  by_cases h1 : ['(', 'e', ')'] <:+: List.map Char.toLower filename <;>
  by_cases h2 : ['(', 'a', 'u', 's', 't', 'r', 'a', 'l', 'i', 'a', ')'] <:+:
      List.map Char.toLower filename <;>
  by_cases h3 : ['(', 'e', 'u', 'r', 'o', 'p', 'e', ')'] <:+: List.map Char.toLower filename <;>
  by_cases h4 : ['(', 'g', 'e', 'r', 'm', 'a', 'n', 'y', ')'] <:+:
      List.map Char.toLower filename <;>
  by_cases h5 : ['(', 's', 'p', 'a', 'i', 'n', ')'] <:+: List.map Char.toLower filename <;>
  simp [h1, h2, h3, h4, h5]

theorem LoadFile_invalid (env : Env) (ldr : RomLoader) (romFile : VirtualFile)
    (hv : romFile.IsValid = false) : LoadFile env ldr romFile = (false, ldr, []) := by
  simp [LoadFile, hv]

theorem LoadFile_short (env : Env) (ldr : RomLoader) (romFile : VirtualFile)
    (hv : romFile.IsValid = true) (hl : romFile.data.length < 15) :
    LoadFile env ldr romFile =
      (false, { ldr with _romData := { ldr._romData with RawData := romFile.data } }, []) := by
  simp [LoadFile, hv, hl]

theorem LoadFile_ok (env : Env) (ldr : RomLoader) (romFile : VirtualFile)
    (hv : romFile.IsValid = true) (hl : 15 ≤ romFile.data.length) :
    LoadFile env ldr romFile =
      (!(LoadFile.finish env romFile.fileName
            (LoadFile.dispatch env ldr._checkOnly (LoadFile.prepared env ldr romFile)
              (env.GetCRC romFile.data) romFile).1
            (LoadFile.dispatch env ldr._checkOnly (LoadFile.prepared env ldr romFile)
              (env.GetCRC romFile.data) romFile).2.1).Error,
        { _romData := LoadFile.finish env romFile.fileName
            (LoadFile.dispatch env ldr._checkOnly (LoadFile.prepared env ldr romFile)
              (env.GetCRC romFile.data) romFile).1
            (LoadFile.dispatch env ldr._checkOnly (LoadFile.prepared env ldr romFile)
              (env.GetCRC romFile.data) romFile).2.1,
          _filename := romFile.fileName, _checkOnly := ldr._checkOnly },
        [Event.Log [], Event.Log ("Loading rom: ".toList ++ env.GetFilename romFile.fileName true)]
          ++ (LoadFile.dispatch env ldr._checkOnly (LoadFile.prepared env ldr romFile)
              (env.GetCRC romFile.data) romFile).2.2) := by
  have hl2 : ¬ romFile.data.length < 15 := by omega
  unfold LoadFile
  simp only [hv, Bool.not_true, Bool.false_eq_true, if_false, hl2]
  generalize hd : LoadFile.dispatch env ldr._checkOnly _ _ romFile = d
  have hd2 : LoadFile.dispatch env ldr._checkOnly (LoadFile.prepared env ldr romFile)
      (env.GetCRC romFile.data) romFile = d := hd
  rw [hd2]
  obtain ⟨rd2, skip, calls⟩ := d
  simp only [LoadFile.finish, ← region_chain_eq]
  cases skip <;> by_cases hs : rd2.Info.System = GameSystem.Unknown <;> simp [hs] <;>
    split_ifs <;> simp_all

theorem memcmp_eq_decide (buf pat : List Nat) (n : Nat) (hn : pat.length = n) :
    memcmp buf pat n = decide (pat <+: buf) := by
  rw [Bool.eq_iff_iff, memcmp_eq_true_iff buf pat n hn, decide_eq_true_iff]

/-- The `if`/`else if` chain of `LoadFile` is the first-match lookup in the
signature table, followed by the call of the loader found; with no row
matching, the database decides. -/
theorem dispatch_eq (env : Env) (co : Bool) (rd : RomData) (crc : Nat) (romFile : VirtualFile) :
    LoadFile.dispatch env co rd crc romFile =
      match selectParser signatureTable rd.RawData with
      | some Parser.iNes =>
        (env.iNesLoader (some co) rd rd.RawData none, false,
          [Event.LoadRom Parser.iNes (some co) none])
      | some Parser.Fds =>
        (env.FdsLoader co rd rd.RawData, false, [Event.LoadRom Parser.Fds (some co) none])
      | some Parser.Nsf =>
        (env.NsfLoader co rd rd.RawData, false, [Event.LoadRom Parser.Nsf (some co) none])
      | some Parser.Nsfe =>
        (env.NsfeLoader co rd rd.RawData, false, [Event.LoadRom Parser.Nsfe (some co) none])
      | some Parser.Unif =>
        (env.UnifLoader co rd rd.RawData, false, [Event.LoadRom Parser.Unif (some co) none])
      | some Parser.StudyBox =>
        (env.StudyBoxLoader co rd rd.RawData romFile.filePath, true,
          [Event.LoadRom Parser.StudyBox (some co) none])
      | none =>
        match env.GetiNesHeader crc with
        | some header =>
          ({ env.iNesLoader none rd rd.RawData (some header) with
              Info := { (env.iNesLoader none rd rd.RawData (some header)).Info with
                IsHeaderlessRom := true } }, false,
            [Event.Log "[DB] Headerless ROM file found - using game database data.".toList,
             Event.LoadRom Parser.iNes none (some header)])
        | none => ({ rd with Error := true }, false, [Event.Log "Invalid rom file.".toList]) := by
  unfold LoadFile.dispatch
  have m1 := memcmp_eq_decide rd.RawData (bytes ['N', 'E', 'S'] ++ [0x1a]) 4 (by decide)
  have m2 := memcmp_eq_decide rd.RawData (bytes ['F', 'D', 'S'] ++ [0x1a]) 4 (by decide)
  have m3 := memcmp_eq_decide rd.RawData
    ([0x1] ++ bytes ['*', 'N', 'I', 'N', 'T', 'E', 'N', 'D', 'O', '-', 'H', 'V', 'C', '*']) 15
    (by decide)
  have m4 := memcmp_eq_decide rd.RawData (bytes ['N', 'E', 'S', 'M'] ++ [0x1a]) 5 (by decide)
  have m5 := memcmp_eq_decide rd.RawData (bytes ['N', 'S', 'F', 'E']) 4 (by decide)
  have m6 := memcmp_eq_decide rd.RawData (bytes ['U', 'N', 'I', 'F']) 4 (by decide)
  have m7 := memcmp_eq_decide rd.RawData (bytes ['S', 'T', 'B', 'X']) 4 (by decide)
  simp only [m1, m2, m3, m4, m5, m6, m7,
    selectParser, signatureTable, List.find?, rowMatches, List.any_cons, List.any_nil,
    Bool.or_false, decide_eq_true_eq, Bool.or_eq_true]
  clear m1 m2 m3 m4 m5 m6 m7
  split_ifs with a1 a2 a3 a4 a5 a6
  · simp [a1]
  · simp only [List.singleton_append] at a2
    rcases a2 with h | h <;> simp [a1, h]
  all_goals simp_all

theorem finish_Crc32 (env : Env) (filename : List Char) (rd : RomData) (skip : Bool) :
    (LoadFile.finish env filename rd skip).Info.Hash.Crc32 = rd.Info.Hash.Crc32 := by
  cases skip <;> rfl

theorem finish_Error (env : Env) (filename : List Char) (rd : RomData) (skip : Bool) :
    (LoadFile.finish env filename rd skip).Error = rd.Error := by
  cases skip <;> rfl

theorem finish_System (env : Env) (filename : List Char) (rd : RomData) (skip : Bool) :
    (LoadFile.finish env filename rd skip).Info.System =
      if rd.Info.System = GameSystem.Unknown then inferRegion filename else rd.Info.System := by
  cases skip <;> rfl

theorem finish_IsHeaderlessRom (env : Env) (filename : List Char) (rd : RomData) (skip : Bool) :
    (LoadFile.finish env filename rd skip).Info.IsHeaderlessRom = rd.Info.IsHeaderlessRom := by
  cases skip <;> rfl

theorem dispatch_Crc32 (env : Env) (hk : env.KeepsCrc32) (co : Bool) (rd : RomData) (crc : Nat)
    (romFile : VirtualFile) :
    (LoadFile.dispatch env co rd crc romFile).1.Info.Hash.Crc32 = rd.Info.Hash.Crc32 := by
  obtain ⟨k1, k2, k3, k4, k5, k6⟩ := hk
  rw [dispatch_eq]
  split
  · exact k1 _ _ _ _
  · exact k2 _ _ _
  · exact k3 _ _ _
  · exact k4 _ _ _
  · exact k5 _ _ _
  · exact k6 _ _ _ _
  · split
    · exact k1 _ _ _ _
    · rfl

theorem demoEnv_KeepsCrc32 : demoEnv.KeepsCrc32 := by
  refine ⟨?_, ?_, ?_, ?_, ?_, ?_⟩
  · intro c rd d h
    cases h <;> rfl
  all_goals intros; rfl


/-- C1, as stated, fails: after `LoadFile` rejects a four-byte buffer in a
new loader, the record does not have its failed flag (`Error`) set, although
neither checksum nor digest is populated. -/
theorem short_buffer_record_not_failed :
    shortFile.IsValid = true ∧ shortFile.data.length < 15 ∧
    ¬ ((GetRomData (LoadFile demoEnv (RomLoader.create true) shortFile).2.1).Error = true ∧
        (GetRomData (LoadFile demoEnv (RomLoader.create true) shortFile).2.1).Info.Hash
          = RomData.fresh.Info.Hash) := by
  decide

/-- C1, amended: for a source that cannot be read or whose buffer is shorter
than 15 bytes, `LoadFile` returns `false` without calling any loader and
leaves the info block of the record (checksum and digest included) and its
failed flag as they were; in a new loader that is: checksum and digest not
populated, failed flag still `false`. -/
theorem LoadFile_reject (env : Env) (ldr : RomLoader) (romFile : VirtualFile)
    (h : romFile.IsValid = false ∨ romFile.data.length < 15) :
    (LoadFile env ldr romFile).1 = false ∧
    (GetRomData (LoadFile env ldr romFile).2.1).Info = ldr._romData.Info ∧
    (GetRomData (LoadFile env ldr romFile).2.1).Error = ldr._romData.Error ∧
    (LoadFile env ldr romFile).2.2 = [] ∧
    (ldr._romData = RomData.fresh →
      (GetRomData (LoadFile env ldr romFile).2.1).Info.Hash = { Crc32 := 0, Sha1 := [] } ∧
      (GetRomData (LoadFile env ldr romFile).2.1).Error = false) := by
  have key : (LoadFile env ldr romFile).1 = false ∧
      (GetRomData (LoadFile env ldr romFile).2.1).Info = ldr._romData.Info ∧
      (GetRomData (LoadFile env ldr romFile).2.1).Error = ldr._romData.Error ∧
      (LoadFile env ldr romFile).2.2 = [] := by
    cases hv : romFile.IsValid with
    | false => rw [LoadFile_invalid env ldr romFile hv]; exact ⟨rfl, rfl, rfl, rfl⟩
    | true =>
      rcases h with h | h
      · rw [hv] at h; cases h
      · rw [LoadFile_short env ldr romFile hv h]; exact ⟨rfl, rfl, rfl, rfl⟩
  obtain ⟨k1, k2, k3, k4⟩ := key
  refine ⟨k1, k2, k3, k4, fun hf => ?_⟩
  rw [k2, k3, hf]
  exact ⟨rfl, rfl⟩

/-- A concrete instance: the four-byte source is rejected by a new loader and the
info block of its record stays as constructed. -/
theorem LoadFile_reject_witness :
    (shortFile.IsValid = false ∨ shortFile.data.length < 15) ∧
    (LoadFile demoEnv (RomLoader.create true) shortFile).1 = false ∧
    (GetRomData (LoadFile demoEnv (RomLoader.create true) shortFile).2.1).Info
      = (RomLoader.create true)._romData.Info :=
  ⟨Or.inr (by decide),
    (LoadFile_reject demoEnv (RomLoader.create true) shortFile (Or.inr (by decide))).1,
    (LoadFile_reject demoEnv (RomLoader.create true) shortFile (Or.inr (by decide))).2.1⟩

/-- C2: for a readable buffer of at least 15 bytes, whatever the dispatch
does, the record's checksum after `LoadFile` is the checksum of the whole
buffer, and a second load of the same bytes (from any source, into any
loader) gives the same checksum. The format loaders are taken not to write
the checksum field. -/
theorem LoadFile_checksum (env : Env) (hk : env.KeepsCrc32) (ldr ldr2 : RomLoader)
    (romFile romFile2 : VirtualFile)
    (hv : romFile.IsValid = true) (hl : 15 ≤ romFile.data.length)
    (hv2 : romFile2.IsValid = true) (hsame : romFile2.data = romFile.data) :
    (GetRomData (LoadFile env ldr romFile).2.1).Info.Hash.Crc32 = env.GetCRC romFile.data ∧
    (GetRomData (LoadFile env ldr2 romFile2).2.1).Info.Hash.Crc32
      = (GetRomData (LoadFile env ldr romFile).2.1).Info.Hash.Crc32 := by
  have one : ∀ (l : RomLoader) (f : VirtualFile), f.IsValid = true → 15 ≤ f.data.length →
      (GetRomData (LoadFile env l f).2.1).Info.Hash.Crc32 = env.GetCRC f.data := by
    intro l f hfv hfl
    rw [LoadFile_ok env l f hfv hfl]
    simp only [GetRomData, finish_Crc32, dispatch_Crc32 env hk]
    rfl
  refine ⟨one ldr romFile hv hl, ?_⟩
  rw [one ldr romFile hv hl, one ldr2 romFile2 hv2 (hsame ▸ hl), hsame]

/-- A concrete instance: the same sixteen bytes loaded from two sources into two
loaders give the checksum of the buffer both times. -/
theorem LoadFile_checksum_witness :
    nesFile.IsValid = true ∧ 15 ≤ nesFile.data.length ∧
    (GetRomData (LoadFile demoEnv (RomLoader.create true) nesFile).2.1).Info.Hash.Crc32
      = demoEnv.GetCRC nesFile.data ∧
    (GetRomData (LoadFile demoEnv (RomLoader.create false)
        (fileOf ['b'] nesFile.data)).2.1).Info.Hash.Crc32
      = (GetRomData (LoadFile demoEnv (RomLoader.create true) nesFile).2.1).Info.Hash.Crc32 :=
  ⟨by decide, by decide,
    LoadFile_checksum demoEnv demoEnv_KeepsCrc32 (RomLoader.create true) (RomLoader.create false)
      nesFile (fileOf ['b'] nesFile.data) (by decide) (by decide) rfl rfl⟩

/-! ## The signature table -/

theorem signatureTable_patterns_apart :
    ∀ r₁ ∈ signatureTable, ∀ r₂ ∈ signatureTable, ∀ p₁ ∈ r₁.1, ∀ p₂ ∈ r₂.1,
      (p₁ <+: p₂ ∨ p₂ <+: p₁) → r₁ = r₂ := by
  decide

theorem rowMatches_iff (buf : List Nat) (row : List (List Nat) × Parser) :
    rowMatches buf row = true ↔ ∃ pat ∈ row.1, pat <+: buf := by
  simp [rowMatches, List.any_eq_true]

theorem rowMatches_unique (buf : List Nat) (r₁ r₂ : List (List Nat) × Parser)
    (h₁ : r₁ ∈ signatureTable) (h₂ : r₂ ∈ signatureTable)
    (m₁ : rowMatches buf r₁ = true) (m₂ : rowMatches buf r₂ = true) : r₁ = r₂ := by
  obtain ⟨p₁, hp₁, pre₁⟩ := (rowMatches_iff buf r₁).mp m₁
  obtain ⟨p₂, hp₂, pre₂⟩ := (rowMatches_iff buf r₂).mp m₂
  exact signatureTable_patterns_apart r₁ h₁ r₂ h₂ p₁ hp₁ p₂ hp₂
    (List.prefix_or_prefix_of_prefix pre₁ pre₂)

/-- First-match search does not depend on the order of a list in which at
most one element satisfies the test. -/
theorem find?_perm_of_unique {α : Type} (p : α → Bool) (l l2 : List α) (hperm : l2.Perm l)
    (huniq : ∀ a ∈ l, ∀ b ∈ l, p a = true → p b = true → a = b) :
    l2.find? p = l.find? p := by
  cases h : l.find? p with
  | none =>
    rw [List.find?_eq_none] at h ⊢
    intro x hx
    exact h x (hperm.mem_iff.mp hx)
  | some a =>
    have ha : a ∈ l := List.mem_of_find?_eq_some h
    have hpa : p a = true := List.find?_some h
    cases h2 : l2.find? p with
    | none =>
      rw [List.find?_eq_none] at h2
      exact absurd hpa (h2 a (hperm.mem_iff.mpr ha))
    | some b =>
      have hb : b ∈ l := hperm.mem_iff.mp (List.mem_of_find?_eq_some h2)
      rw [huniq b hb a ha (List.find?_some h2) hpa]

theorem selectParser_perm (t : List (List (List Nat) × Parser)) (ht : t.Perm signatureTable)
    (buf : List Nat) : selectParser t buf = selectParser signatureTable buf := by
  unfold selectParser
  rw [find?_perm_of_unique (rowMatches buf) signatureTable t ht
    (fun a ha b hb ma mb => rowMatches_unique buf a b ha hb ma mb)]

theorem selectParser_of_pattern (buf : List Nat) (row : List (List Nat) × Parser)
    (hrow : row ∈ signatureTable) (pat : List Nat) (hpat : pat ∈ row.1) (hpre : pat <+: buf) :
    selectParser signatureTable buf = some row.2 := by
  have hm : rowMatches buf row = true := (rowMatches_iff buf row).mpr ⟨pat, hpat, hpre⟩
  unfold selectParser
  cases h : signatureTable.find? (rowMatches buf) with
  | none =>
    rw [List.find?_eq_none] at h
    exact absurd hm (h row hrow)
  | some r =>
    rw [rowMatches_unique buf r row (List.mem_of_find?_eq_some h) hrow (List.find?_some h) hm]
    rfl

theorem selectParser_eq_none_iff (buf : List Nat) :
    selectParser signatureTable buf = none ↔
      ∀ row ∈ signatureTable, ∀ pat ∈ row.1, ¬ pat <+: buf := by
  unfold selectParser
  rw [Option.map_eq_none', List.find?_eq_none]
  constructor
  · intro h row hrow pat hpat hpre
    exact h row hrow ((rowMatches_iff buf row).mpr ⟨pat, hpat, hpre⟩)
  · intro h row hrow hm
    obtain ⟨pat, hpat, hpre⟩ := (rowMatches_iff buf row).mp hm
    exact h row hrow pat hpat hpre

/-- The calls the dispatch makes, read off the table lookup. -/
theorem dispatch_events (env : Env) (co : Bool) (rd : RomData) (crc : Nat)
    (romFile : VirtualFile) :
    (LoadFile.dispatch env co rd crc romFile).2.2 =
      match selectParser signatureTable rd.RawData with
      | some p => [Event.LoadRom p (some co) none]
      | none =>
        match env.GetiNesHeader crc with
        | some header =>
          [Event.Log "[DB] Headerless ROM file found - using game database data.".toList,
           Event.LoadRom Parser.iNes none (some header)]
        | none => [Event.Log "Invalid rom file.".toList] := by
  rw [dispatch_eq]
  cases h : selectParser signatureTable rd.RawData with
  | none => cases h2 : env.GetiNesHeader crc <;> rfl
  | some p => cases p <;> rfl

theorem LoadFile_events (env : Env) (ldr : RomLoader) (romFile : VirtualFile)
    (hv : romFile.IsValid = true) (hl : 15 ≤ romFile.data.length) :
    (LoadFile env ldr romFile).2.2 =
      [Event.Log [], Event.Log ("Loading rom: ".toList ++ env.GetFilename romFile.fileName true)]
        ++ match selectParser signatureTable romFile.data with
          | some p => [Event.LoadRom p (some ldr._checkOnly) none]
          | none =>
            match env.GetiNesHeader (env.GetCRC romFile.data) with
            | some header =>
              [Event.Log "[DB] Headerless ROM file found - using game database data.".toList,
               Event.LoadRom Parser.iNes none (some header)]
            | none => [Event.Log "Invalid rom file.".toList] := by
  rw [LoadFile_ok env ldr romFile hv hl]
  simp only [dispatch_events]
  rfl

/-- C3: for a readable buffer of at least 15 bytes, a row of the signature
table one of whose patterns is a prefix of the buffer makes `LoadFile` call
the loader of that row, constructed with `_checkOnly` and given no header,
and that is the only `LoadRom` call of the load; when no pattern of the
table is a prefix of the buffer, no loader is called through the signature
chain (the only possible `LoadRom` call is the database fallback, which
passes the reconstructed header). -/
theorem LoadFile_signature_dispatch (env : Env) (ldr : RomLoader) (romFile : VirtualFile)
    (hv : romFile.IsValid = true) (hl : 15 ≤ romFile.data.length) :
    (∀ row ∈ signatureTable, ∀ pat ∈ row.1, pat <+: romFile.data →
      loadRomCalls (LoadFile env ldr romFile).2.2
        = [Event.LoadRom row.2 (some ldr._checkOnly) none]) ∧
    ((∀ row ∈ signatureTable, ∀ pat ∈ row.1, ¬ pat <+: romFile.data) →
      signatureCalls (LoadFile env ldr romFile).2.2 = [] ∧
      loadRomCalls (LoadFile env ldr romFile).2.2
        = match env.GetiNesHeader (env.GetCRC romFile.data) with
          | some header => [Event.LoadRom Parser.iNes none (some header)]
          | none => []) := by
  rw [LoadFile_events env ldr romFile hv hl]
  constructor
  · intro row hrow pat hpat hpre
    rw [selectParser_of_pattern romFile.data row hrow pat hpat hpre]
    rfl
  · intro hnone
    rw [(selectParser_eq_none_iff romFile.data).mpr hnone]
    cases env.GetiNesHeader (env.GetCRC romFile.data) <;> exact ⟨rfl, rfl⟩

/-- A concrete instance: a buffer starting with `NES 0x1A` makes the load call
the cartridge loader and nothing else. -/
theorem LoadFile_signature_dispatch_witness :
    nesFile.IsValid = true ∧ 15 ≤ nesFile.data.length ∧
    loadRomCalls (LoadFile demoEnv (RomLoader.create true) nesFile).2.2
      = [Event.LoadRom Parser.iNes (some true) none] :=
  ⟨by decide, by decide,
    (LoadFile_signature_dispatch demoEnv (RomLoader.create true) nesFile (by decide)
      (by decide)).1 ([bytes ['N', 'E', 'S'] ++ [0x1a]], Parser.iNes) (by decide)
      (bytes ['N', 'E', 'S'] ++ [0x1a]) (by decide) (by decide)⟩

/-- C4: the rows of the signature table exclude one another. For a readable
buffer of at least 15 bytes and any reordering `t` of the table, at most one
row of `t` matches the buffer, first-match lookup in `t` selects what
first-match lookup in the table selects, and that is the loader `LoadFile`
calls through its signature chain. -/
theorem signatureTable_order_irrelevant (env : Env) (ldr : RomLoader) (romFile : VirtualFile)
    (t : List (List (List Nat) × Parser))
    (hv : romFile.IsValid = true) (hl : 15 ≤ romFile.data.length)
    (ht : t.Perm signatureTable) :
    (∀ r₁ ∈ t, ∀ r₂ ∈ t,
      rowMatches romFile.data r₁ = true → rowMatches romFile.data r₂ = true → r₁ = r₂) ∧
    selectParser t romFile.data = selectParser signatureTable romFile.data ∧
    signatureCalls (LoadFile env ldr romFile).2.2
      = (selectParser t romFile.data).toList.map (fun p => (p, some ldr._checkOnly)) := by
  refine ⟨fun r₁ h₁ r₂ h₂ m₁ m₂ =>
      rowMatches_unique romFile.data r₁ r₂ (ht.mem_iff.mp h₁) (ht.mem_iff.mp h₂) m₁ m₂,
    selectParser_perm t ht romFile.data, ?_⟩
  rw [selectParser_perm t ht romFile.data, LoadFile_events env ldr romFile hv hl]
  cases selectParser signatureTable romFile.data with
  | some p => rfl
  | none => cases env.GetiNesHeader (env.GetCRC romFile.data) <;> rfl

/-- A concrete instance: looking the cartridge image up in the reversed table
still selects the cartridge loader, the one the load calls. -/
theorem signatureTable_order_irrelevant_witness :
    nesFile.IsValid = true ∧ 15 ≤ nesFile.data.length ∧
    signatureTable.reverse.Perm signatureTable ∧
    selectParser signatureTable.reverse nesFile.data = some Parser.iNes ∧
    signatureCalls (LoadFile demoEnv (RomLoader.create true) nesFile).2.2
      = (selectParser signatureTable.reverse nesFile.data).toList.map
          (fun p => (p, some (RomLoader.create true)._checkOnly)) :=
  ⟨by decide, by decide, List.reverse_perm signatureTable, by decide,
    (signatureTable_order_irrelevant demoEnv (RomLoader.create true) nesFile
      signatureTable.reverse (by decide) (by decide) (List.reverse_perm signatureTable)).2.2⟩

/-! ## Unrecognised buffers and the database fallback -/

/-- C5, as stated, fails: a readable 16-byte buffer with no signature and no
database entry makes `LoadFile` set the failed flag, but the load does not
stop there: the digest is computed, the names are assigned and the region is
inferred from the name (here `(E)` gives the PAL system). -/
theorem unrecognized_load_runs_later_steps :
    unknownFile.IsValid = true ∧ 15 ≤ unknownFile.data.length ∧
    selectParser signatureTable unknownFile.data = none ∧
    demoEnv.GetiNesHeader (demoEnv.GetCRC unknownFile.data) = none ∧
    (GetRomData (LoadFile demoEnv (RomLoader.create true) unknownFile).2.1).Error = true ∧
    (GetRomData (LoadFile demoEnv (RomLoader.create true) unknownFile).2.1).Info.Hash.Sha1
      ≠ RomData.fresh.Info.Hash.Sha1 ∧
    (GetRomData (LoadFile demoEnv (RomLoader.create true) unknownFile).2.1).Info.Filename
      ≠ RomData.fresh.Info.Filename ∧
    (GetRomData (LoadFile demoEnv (RomLoader.create true) unknownFile).2.1).Info.System
      = GameSystem.NesPal := by
  decide

/-- C5, amended: for a readable buffer of at least 15 bytes that matches no
signature and whose checksum the database does not know, `LoadFile` calls no
loader, logs "Invalid rom file.", sets the failed flag and returns `false`
with the checksum computed; it then still runs the remaining steps: the
digest of the buffer is stored, both names are assigned, and a system still
`Unknown` is inferred from the name. -/
theorem LoadFile_unrecognized (env : Env) (ldr : RomLoader) (romFile : VirtualFile)
    (hv : romFile.IsValid = true) (hl : 15 ≤ romFile.data.length)
    (hsig : selectParser signatureTable romFile.data = none)
    (hdb : env.GetiNesHeader (env.GetCRC romFile.data) = none) :
    (LoadFile env ldr romFile).1 = false ∧
    GetRomData (LoadFile env ldr romFile).2.1 =
      { Info :=
          { RomName := env.GetFilename romFile.fileName true
            Filename := romFile.fileName
            System :=
              if ldr._romData.Info.System = GameSystem.Unknown then inferRegion romFile.fileName
              else ldr._romData.Info.System
            IsHeaderlessRom := ldr._romData.Info.IsHeaderlessRom
            Hash := { Crc32 := env.GetCRC romFile.data, Sha1 := env.GetHash romFile.data } }
        RawData := romFile.data
        Error := true } ∧
    (LoadFile env ldr romFile).2.2 =
      [Event.Log [], Event.Log ("Loading rom: ".toList ++ env.GetFilename romFile.fileName true),
       Event.Log "Invalid rom file.".toList] := by
  refine ⟨?_, ?_, ?_⟩
  · rw [LoadFile_ok env ldr romFile hv hl, dispatch_eq]
    simp only [finish_Error]
    have : (LoadFile.prepared env ldr romFile).RawData = romFile.data := rfl
    rw [this, hsig, hdb]
    rfl
  · rw [LoadFile_ok env ldr romFile hv hl, dispatch_eq]
    have : (LoadFile.prepared env ldr romFile).RawData = romFile.data := rfl
    rw [this, hsig, hdb]
    rfl
  · rw [LoadFile_events env ldr romFile hv hl, hsig, hdb]
    rfl

/-- A concrete instance: sixteen bytes without signature or database entry
make the load fail. -/
theorem LoadFile_unrecognized_witness :
    unknownFile.IsValid = true ∧ 15 ≤ unknownFile.data.length ∧
    selectParser signatureTable unknownFile.data = none ∧
    demoEnv.GetiNesHeader (demoEnv.GetCRC unknownFile.data) = none ∧
    (LoadFile demoEnv (RomLoader.create true) unknownFile).1 = false :=
  ⟨by decide, by decide, by decide, by decide,
    (LoadFile_unrecognized demoEnv (RomLoader.create true) unknownFile (by decide) (by decide)
      (by decide) (by decide)).1⟩

/-- C6: for a readable buffer of at least 15 bytes that matches no signature
and whose checksum the database knows, `LoadFile` makes exactly one `LoadRom`
call, on a default-constructed cartridge loader with the database header as
override, and sets `IsHeaderlessRom`. It never writes the failed flag on this
path, so the record is not failed and `true` is returned as soon as the
loader accepted the image; and the system is the one the loader derived
(only a system the loader left `Unknown` is replaced, by the heuristic). -/
theorem LoadFile_headerless (env : Env) (ldr : RomLoader) (romFile : VirtualFile)
    (header : NESHeader)
    (hv : romFile.IsValid = true) (hl : 15 ≤ romFile.data.length)
    (hsig : selectParser signatureTable romFile.data = none)
    (hdb : env.GetiNesHeader (env.GetCRC romFile.data) = some header) :
    loadRomCalls (LoadFile env ldr romFile).2.2
      = [Event.LoadRom Parser.iNes none (some header)] ∧
    (GetRomData (LoadFile env ldr romFile).2.1).Info.IsHeaderlessRom = true ∧
    (GetRomData (LoadFile env ldr romFile).2.1).Error
      = (env.iNesLoader none (LoadFile.prepared env ldr romFile) romFile.data
          (some header)).Error ∧
    ((env.iNesLoader none (LoadFile.prepared env ldr romFile) romFile.data
          (some header)).Error = false →
      (GetRomData (LoadFile env ldr romFile).2.1).Error = false ∧
      (LoadFile env ldr romFile).1 = true) ∧
    ((env.iNesLoader none (LoadFile.prepared env ldr romFile) romFile.data
          (some header)).Info.System ≠ GameSystem.Unknown →
      (GetRomData (LoadFile env ldr romFile).2.1).Info.System
        = (env.iNesLoader none (LoadFile.prepared env ldr romFile) romFile.data
            (some header)).Info.System) ∧
    ((env.iNesLoader none (LoadFile.prepared env ldr romFile) romFile.data
          (some header)).Info.System = GameSystem.Unknown →
      (GetRomData (LoadFile env ldr romFile).2.1).Info.System = inferRegion romFile.fileName) := by
  have hraw : (LoadFile.prepared env ldr romFile).RawData = romFile.data := rfl
  have hd : LoadFile.dispatch env ldr._checkOnly (LoadFile.prepared env ldr romFile)
      (env.GetCRC romFile.data) romFile =
      ({ env.iNesLoader none (LoadFile.prepared env ldr romFile) romFile.data (some header) with
          Info := { (env.iNesLoader none (LoadFile.prepared env ldr romFile) romFile.data
            (some header)).Info with IsHeaderlessRom := true } }, false,
        [Event.Log "[DB] Headerless ROM file found - using game database data.".toList,
         Event.LoadRom Parser.iNes none (some header)]) := by
    rw [dispatch_eq, hraw, hsig, hdb]
  have hev := LoadFile_events env ldr romFile hv hl
  rw [hsig, hdb] at hev
  have hok := LoadFile_ok env ldr romFile hv hl
  rw [hd] at hok
  rw [hev, hok]
  refine ⟨rfl, ?_, ?_, ?_, ?_, ?_⟩
  · exact finish_IsHeaderlessRom _ _ _ _
  · exact finish_Error _ _ _ _
  · intro h
    have he := (finish_Error env romFile.fileName
      { env.iNesLoader none (LoadFile.prepared env ldr romFile) romFile.data (some header) with
        Info := { (env.iNesLoader none (LoadFile.prepared env ldr romFile) romFile.data
          (some header)).Info with IsHeaderlessRom := true } } false).trans h
    refine ⟨he, ?_⟩
    show (!(LoadFile.finish env romFile.fileName _ false).Error) = true
    rw [he]
    rfl
  · intro h
    exact (finish_System _ _ _ _).trans (if_neg h)
  · intro h
    exact (finish_System _ _ _ _).trans (if_pos h)

/-- A concrete instance: fifteen bytes without signature but known to the
database load successfully as a headerless image, with the system the loader
derived from the database header. -/
theorem LoadFile_headerless_witness :
    headerlessFile.IsValid = true ∧ 15 ≤ headerlessFile.data.length ∧
    selectParser signatureTable headerlessFile.data = none ∧
    demoEnv.GetiNesHeader (demoEnv.GetCRC headerlessFile.data) = some ⟨[78, 69, 83, 26]⟩ ∧
    (GetRomData (LoadFile demoEnv (RomLoader.create true) headerlessFile).2.1).Info.IsHeaderlessRom
      = true ∧
    (GetRomData (LoadFile demoEnv (RomLoader.create true) headerlessFile).2.1).Error = false ∧
    (LoadFile demoEnv (RomLoader.create true) headerlessFile).1 = true ∧
    (GetRomData (LoadFile demoEnv (RomLoader.create true) headerlessFile).2.1).Info.System
      = GameSystem.NesPal :=
  have h := LoadFile_headerless demoEnv (RomLoader.create true) headerlessFile
    ⟨[78, 69, 83, 26]⟩ (by decide) (by decide) (by decide) (by decide)
  ⟨by decide, by decide, by decide, by decide, h.2.1, (h.2.2.2.1 (by decide)).1,
    (h.2.2.2.1 (by decide)).2, (h.2.2.2.2.1 (by decide)).trans (by decide)⟩

/-! ## The digest opt-out -/

theorem finish_Sha1_skipped (env : Env) (filename : List Char) (rd : RomData) :
    (LoadFile.finish env filename rd true).Info.Hash.Sha1 = rd.Info.Hash.Sha1 := rfl

/-- C7: for a readable buffer of at least 15 bytes that starts with `STBX`,
`LoadFile` calls the media-archive loader and then skips the digest: the
digest of the record is whatever that loader left. With a loader that does
not write the digest and a record whose digest was empty before the load (a
new loader), the returned record has an empty digest, whatever the rest of
the buffer holds. -/
theorem LoadFile_StudyBox_digest (env : Env) (ldr : RomLoader) (romFile : VirtualFile)
    (hv : romFile.IsValid = true) (hl : 15 ≤ romFile.data.length)
    (hsig : bytes ['S', 'T', 'B', 'X'] <+: romFile.data)
    (hnew : ldr._romData.Info.Hash.Sha1 = [])
    (hkeep : ∀ c rd d path, (env.StudyBoxLoader c rd d path).Info.Hash.Sha1 = rd.Info.Hash.Sha1) :
    loadRomCalls (LoadFile env ldr romFile).2.2
      = [Event.LoadRom Parser.StudyBox (some ldr._checkOnly) none] ∧
    (GetRomData (LoadFile env ldr romFile).2.1).Info.Hash.Sha1
      = (env.StudyBoxLoader ldr._checkOnly (LoadFile.prepared env ldr romFile) romFile.data
          romFile.filePath).Info.Hash.Sha1 ∧
    (GetRomData (LoadFile env ldr romFile).2.1).Info.Hash.Sha1 = [] := by
  have hsel : selectParser signatureTable romFile.data = some Parser.StudyBox :=
    selectParser_of_pattern romFile.data ([bytes ['S', 'T', 'B', 'X']], Parser.StudyBox)
      (by decide) (bytes ['S', 'T', 'B', 'X']) (by decide) hsig
  have hraw : (LoadFile.prepared env ldr romFile).RawData = romFile.data := rfl
  have hd : LoadFile.dispatch env ldr._checkOnly (LoadFile.prepared env ldr romFile)
      (env.GetCRC romFile.data) romFile =
      (env.StudyBoxLoader ldr._checkOnly (LoadFile.prepared env ldr romFile) romFile.data
        romFile.filePath, true, [Event.LoadRom Parser.StudyBox (some ldr._checkOnly) none]) := by
    rw [dispatch_eq, hraw, hsel]
  have hev := LoadFile_events env ldr romFile hv hl
  rw [hsel] at hev
  have hok := LoadFile_ok env ldr romFile hv hl
  rw [hd] at hok
  rw [hev, hok]
  refine ⟨rfl, finish_Sha1_skipped _ _ _, ?_⟩
  exact (finish_Sha1_skipped _ _ _).trans ((hkeep _ _ _ _).trans hnew)

/-- A concrete instance: a media-archive image loaded by a new loader has an
empty digest. -/
theorem LoadFile_StudyBox_digest_witness :
    studyBoxFile.IsValid = true ∧ 15 ≤ studyBoxFile.data.length ∧
    bytes ['S', 'T', 'B', 'X'] <+: studyBoxFile.data ∧
    (GetRomData (LoadFile demoEnv (RomLoader.create true) studyBoxFile).2.1).Info.Hash.Sha1 = [] :=
  ⟨by decide, by decide, by decide,
    (LoadFile_StudyBox_digest demoEnv (RomLoader.create true) studyBoxFile (by decide) (by decide)
      (by decide) rfl (fun _ _ _ _ => rfl)).2.2⟩

/-! ## The region heuristic -/

theorem LoadFile_System (env : Env) (ldr : RomLoader) (romFile : VirtualFile)
    (hv : romFile.IsValid = true) (hl : 15 ≤ romFile.data.length) :
    (GetRomData (LoadFile env ldr romFile).2.1).Info.System =
      if (LoadFile.parsed env ldr romFile).Info.System = GameSystem.Unknown then
        inferRegion romFile.fileName
      else (LoadFile.parsed env ldr romFile).Info.System := by
  rw [LoadFile_ok env ldr romFile hv hl]
  exact finish_System _ _ _ _

/-- C8: when the dispatch of a load (the selected loader, or no loader at
all) leaves the system `Unknown`, the system of the returned record is the
one the heuristic reads off the lower-cased name of the source: PAL if the
name contains one of the five PAL tags, whether or not it also contains
`(vs)`; otherwise the arcade system if it contains `(vs)`; otherwise NTSC. -/
theorem LoadFile_region_inferred (env : Env) (ldr : RomLoader) (romFile : VirtualFile)
    (hv : romFile.IsValid = true) (hl : 15 ≤ romFile.data.length)
    (hunk : (LoadFile.parsed env ldr romFile).Info.System = GameSystem.Unknown) :
    (GetRomData (LoadFile env ldr romFile).2.1).Info.System = inferRegion romFile.fileName ∧
    ((∃ tag ∈ palTags, tag <:+: tolower romFile.fileName) →
      (GetRomData (LoadFile env ldr romFile).2.1).Info.System = GameSystem.NesPal) ∧
    ((∀ tag ∈ palTags, ¬ tag <:+: tolower romFile.fileName) →
      ['(', 'v', 's', ')'] <:+: tolower romFile.fileName →
      (GetRomData (LoadFile env ldr romFile).2.1).Info.System = GameSystem.VsSystem) ∧
    ((∀ tag ∈ palTags, ¬ tag <:+: tolower romFile.fileName) →
      ¬ ['(', 'v', 's', ')'] <:+: tolower romFile.fileName →
      (GetRomData (LoadFile env ldr romFile).2.1).Info.System = GameSystem.NesNtsc) := by
  have hs : (GetRomData (LoadFile env ldr romFile).2.1).Info.System
      = inferRegion romFile.fileName := by
    rw [LoadFile_System env ldr romFile hv hl, if_pos hunk]
  rw [hs]
  refine ⟨rfl, ?_, ?_, ?_⟩
  · intro hpal
    unfold inferRegion
    exact if_pos hpal
  · intro hnpal hvs
    have hn : ¬ ∃ tag ∈ palTags, tag <:+: tolower romFile.fileName :=
      fun ⟨tag, ht, hi⟩ => hnpal tag ht hi
    unfold inferRegion
    exact (if_neg hn).trans (if_pos hvs)
  · intro hnpal hnvs
    have hn : ¬ ∃ tag ∈ palTags, tag <:+: tolower romFile.fileName :=
      fun ⟨tag, ht, hi⟩ => hnpal tag ht hi
    unfold inferRegion
    exact (if_neg hn).trans (if_neg hnvs)

/-- A concrete instance: a name with both `(VS)` and `(Europe)`, in upper case,
gives the PAL system. -/
theorem LoadFile_region_inferred_witness :
    vsEuropeFile.IsValid = true ∧ 15 ≤ vsEuropeFile.data.length ∧
    (LoadFile.parsed demoEnv (RomLoader.create true) vsEuropeFile).Info.System
      = GameSystem.Unknown ∧
    ['(', 'v', 's', ')'] <:+: tolower vsEuropeFile.fileName ∧
    (GetRomData (LoadFile demoEnv (RomLoader.create true) vsEuropeFile).2.1).Info.System
      = GameSystem.NesPal :=
  ⟨by decide, by decide, by decide, by decide,
    (LoadFile_region_inferred demoEnv (RomLoader.create true) vsEuropeFile (by decide) (by decide)
      (by decide)).2.1 ⟨['(', 'e', 'u', 'r', 'o', 'p', 'e', ')'], by decide, by decide⟩⟩

/-- C9: when the dispatch of a load leaves the system at a value other than
`Unknown`, the returned record has exactly that system, whatever tags the
name of the source contains. -/
theorem LoadFile_keeps_parser_system (env : Env) (ldr : RomLoader) (romFile : VirtualFile)
    (hv : romFile.IsValid = true) (hl : 15 ≤ romFile.data.length)
    (hset : (LoadFile.parsed env ldr romFile).Info.System ≠ GameSystem.Unknown) :
    (GetRomData (LoadFile env ldr romFile).2.1).Info.System
      = (LoadFile.parsed env ldr romFile).Info.System := by
  rw [LoadFile_System env ldr romFile hv hl, if_neg hset]

/-- A concrete instance: the disk loader sets the NTSC system and the `(E)` tag
of the name does not change it. -/
theorem LoadFile_keeps_parser_system_witness :
    fdsFile.IsValid = true ∧ 15 ≤ fdsFile.data.length ∧
    (LoadFile.parsed demoEnv (RomLoader.create true) fdsFile).Info.System = GameSystem.NesNtsc ∧
    ['(', 'e', ')'] <:+: tolower fdsFile.fileName ∧
    (GetRomData (LoadFile demoEnv (RomLoader.create true) fdsFile).2.1).Info.System
      = (LoadFile.parsed demoEnv (RomLoader.create true) fdsFile).Info.System :=
  ⟨by decide, by decide, by decide, by decide,
    LoadFile_keeps_parser_system demoEnv (RomLoader.create true) fdsFile (by decide) (by decide)
      (by decide)⟩

/-! ## The result and the failed flag -/

/-- C10, as stated, fails: loading a source that cannot be read into a new
loader returns `false` although the failed flag of the record is `false`. -/
theorem unreadable_result_not_negated_flag :
    unreadableFile.IsValid = false ∧
    (LoadFile demoEnv (RomLoader.create true) unreadableFile).1 = false ∧
    (GetRomData (LoadFile demoEnv (RomLoader.create true) unreadableFile).2.1).Error = false ∧
    (LoadFile demoEnv (RomLoader.create true) unreadableFile).1
      ≠ !(GetRomData (LoadFile demoEnv (RomLoader.create true) unreadableFile).2.1).Error := by
  decide

/-- C10, amended: `LoadFile` returns `true` exactly when the source is
readable, its buffer has at least 15 bytes and the record's failed flag is
`false` afterwards; so on a load that passes both checks the result is the
negation of the failed flag, while on the fast-reject path the result is
`false` and the failed flag is left as it was before the call. -/
theorem LoadFile_result (env : Env) (ldr : RomLoader) (romFile : VirtualFile) :
    (LoadFile env ldr romFile).1
      = (romFile.IsValid && decide (15 ≤ romFile.data.length)
          && !(GetRomData (LoadFile env ldr romFile).2.1).Error) ∧
    (romFile.IsValid = true ∧ 15 ≤ romFile.data.length →
      (LoadFile env ldr romFile).1 = !(GetRomData (LoadFile env ldr romFile).2.1).Error) ∧
    (¬ (romFile.IsValid = true ∧ 15 ≤ romFile.data.length) →
      (LoadFile env ldr romFile).1 = false ∧
      (GetRomData (LoadFile env ldr romFile).2.1).Error = ldr._romData.Error) := by
  cases hv : romFile.IsValid with
  | false =>
    rw [LoadFile_invalid env ldr romFile hv]
    simp [GetRomData]
  | true =>
    by_cases hl : 15 ≤ romFile.data.length
    · rw [LoadFile_ok env ldr romFile hv hl]
      simp [GetRomData, hl]
    · rw [LoadFile_short env ldr romFile hv (by omega)]
      simp [GetRomData, hl]

/-! ## The matcher: reading events -/

theorem loadsOf_append (a b : List SearchEvent) : loadsOf (a ++ b) = loadsOf a ++ loadsOf b := by
  simp [loadsOf, List.filterMap_append]

theorem verifiedOf_append (a b : List SearchEvent) :
    verifiedOf (a ++ b) = verifiedOf a ++ verifiedOf b := by
  simp [verifiedOf, List.filterMap_append]

theorem countsOf_append (a b : List SearchEvent) :
    countsOf (a ++ b) = countsOf a ++ countsOf b := by
  simp [countsOf, List.filterMap_append]

/-! ## The matcher: one step of each loop -/

theorem entries_nil (env : Env) (fs : FileSystem) (filePath : List Char) (hashInfo : HashInfo)
    (n : Nat) : FindMatchingRomInFile.entries env fs filePath hashInfo [] n = ([], n, []) := rfl

/-- An entry whose load fails: the loop goes on with the same count. -/
theorem entries_cons_failed (env : Env) (fs : FileSystem) (filePath : List Char)
    (hashInfo : HashInfo) (file : List Char) (rest : List (List Char)) (n : Nat)
    (hfail : (LoadFile env (RomLoader.create true) (fs.innerFile filePath file)).1 = false) :
    FindMatchingRomInFile.entries env fs filePath hashInfo (file :: rest) n =
      ((FindMatchingRomInFile.entries env fs filePath hashInfo rest n).1,
       (FindMatchingRomInFile.entries env fs filePath hashInfo rest n).2.1,
       SearchEvent.Load (fs.innerFile filePath file) n
         :: (FindMatchingRomInFile.entries env fs filePath hashInfo rest n).2.2) := by
  rw [FindMatchingRomInFile.entries]
  simp [hfail]

/-- An entry that loads and matches: the loop returns it. -/
theorem entries_cons_match (env : Env) (fs : FileSystem) (filePath : List Char)
    (hashInfo : HashInfo) (file : List Char) (rest : List (List Char)) (n : Nat)
    (hm : isMatch env hashInfo (fs.innerFile filePath file) = true) :
    FindMatchingRomInFile.entries env fs filePath hashInfo (file :: rest) n =
      (fs.innerPath filePath file, n, [SearchEvent.Load (fs.innerFile filePath file) n]) := by
  simp only [isMatch, Bool.and_eq_true] at hm
  rw [FindMatchingRomInFile.entries]
  simp [hm.1, hm.2]

/-- An entry that loads without matching: one unit of budget, then the
ceiling test. -/
theorem entries_cons_loaded (env : Env) (fs : FileSystem) (filePath : List Char)
    (hashInfo : HashInfo) (file : List Char) (rest : List (List Char)) (n : Nat)
    (hok : (LoadFile env (RomLoader.create true) (fs.innerFile filePath file)).1 = true)
    (hno : hashMatches hashInfo
      (LoadFile env (RomLoader.create true) (fs.innerFile filePath file)).2.1._romData = false) :
    FindMatchingRomInFile.entries env fs filePath hashInfo (file :: rest) n =
      if n + 1 > MaxFilesToCheck then
        ([], n + 1, [SearchEvent.Load (fs.innerFile filePath file) n])
      else
        ((FindMatchingRomInFile.entries env fs filePath hashInfo rest (n + 1)).1,
         (FindMatchingRomInFile.entries env fs filePath hashInfo rest (n + 1)).2.1,
         SearchEvent.Load (fs.innerFile filePath file) n
           :: (FindMatchingRomInFile.entries env fs filePath hashInfo rest (n + 1)).2.2) := by
  rw [FindMatchingRomInFile.entries]
  simp [hok, hno]

/-- The three ways an entry can go. -/
theorem entry_cases (env : Env) (hashInfo : HashInfo) (f : VirtualFile) :
    (LoadFile env (RomLoader.create true) f).1 = false ∧ isMatch env hashInfo f = false ∨
    isMatch env hashInfo f = true ∨
    ((LoadFile env (RomLoader.create true) f).1 = true ∧
      hashMatches hashInfo (LoadFile env (RomLoader.create true) f).2.1._romData = false ∧
      isMatch env hashInfo f = false) := by
  unfold isMatch
  cases h1 : (LoadFile env (RomLoader.create true) f).1 <;>
  cases h2 : hashMatches hashInfo (LoadFile env (RomLoader.create true) f).2.1._romData <;> simp

/-- Verifying a plain file: one load; the path is returned on a match,
otherwise the count goes up by one. -/
theorem FindMatchingRomInFile_plain (env : Env) (fs : FileSystem) (filePath : List Char)
    (hashInfo : HashInfo) (n : Nat) (hplain : fs.GetReader filePath = none) :
    FindMatchingRomInFile env fs filePath hashInfo n =
      if isMatch env hashInfo (fs.file filePath) then
        (filePath, n, [SearchEvent.Verify filePath n, SearchEvent.Load (fs.file filePath) n])
      else
        ([], n + 1, [SearchEvent.Verify filePath n, SearchEvent.Load (fs.file filePath) n]) := by
  unfold FindMatchingRomInFile isMatch
  rw [hplain]
  cases h1 : (LoadFile env (RomLoader.create true) (fs.file filePath)).1 <;>
  cases h2 : hashMatches hashInfo
    (LoadFile env (RomLoader.create true) (fs.file filePath)).2.1._romData <;> simp [h1, h2]

/-- Verifying an archive: the entry loop, after the `Verify` event. -/
theorem FindMatchingRomInFile_archive (env : Env) (fs : FileSystem) (filePath : List Char)
    (hashInfo : HashInfo) (n : Nat) (reader : ArchiveReader)
    (harch : fs.GetReader filePath = some reader) :
    FindMatchingRomInFile env fs filePath hashInfo n =
      ((FindMatchingRomInFile.entries env fs filePath hashInfo reader.GetFileList n).1,
       (FindMatchingRomInFile.entries env fs filePath hashInfo reader.GetFileList n).2.1,
       SearchEvent.Verify filePath n
         :: (FindMatchingRomInFile.entries env fs filePath hashInfo reader.GetFileList n).2.2) := by
  unfold FindMatchingRomInFile
  rw [harch]

/-! ## The matcher returns the first verified match -/

theorem FirstMatch_mono (env : Env) (hashInfo : HashInfo)
    (N N2 : List Char → VirtualFile → Prop) (r : List Char × Nat × List SearchEvent)
    (hN : ∀ name f, N name f → N2 name f) (h : FirstMatch env hashInfo N r) :
    FirstMatch env hashInfo N2 r := by
  refine ⟨fun hne => ?_, h.2⟩
  obtain ⟨pre, f, h1, h2, h3, h4⟩ := h.1 hne
  exact ⟨pre, f, h1, hN _ _ h2, h3, h4⟩

theorem FirstMatch_after (env : Env) (hashInfo : HashInfo)
    (N : List Char → VirtualFile → Prop) (r : List Char × Nat × List SearchEvent)
    (evs : List SearchEvent) (k : Nat)
    (hevs : ∀ g ∈ loadsOf evs, isMatch env hashInfo g = false)
    (h : FirstMatch env hashInfo N r) :
    FirstMatch env hashInfo N (r.1, k, evs ++ r.2.2) := by
  constructor
  · intro hne
    obtain ⟨pre, f, h1, h2, h3, h4⟩ := h.1 hne
    refine ⟨loadsOf evs ++ pre, f, ?_, h2, h3, ?_⟩
    · show loadsOf (evs ++ r.2.2) = loadsOf evs ++ pre ++ [f]
      rw [loadsOf_append, h1, List.append_assoc]
    · intro g hg
      rcases List.mem_append.mp hg with hg | hg
      · exact hevs g hg
      · exact h4 g hg
  · intro he g hg
    have hg2 : g ∈ loadsOf (evs ++ r.2.2) := hg
    rw [loadsOf_append] at hg2
    rcases List.mem_append.mp hg2 with hg3 | hg3
    · exact hevs g hg3
    · exact h.2 he g hg3

theorem entries_firstMatch (env : Env) (fs : FileSystem) (c : List Char) (hashInfo : HashInfo)
    (hi : ∀ e, fs.innerPath c e ≠ []) (es : List (List Char)) :
    ∀ n, FirstMatch env hashInfo
      (fun name f => ∃ e ∈ es, name = fs.innerPath c e ∧ f = fs.innerFile c e)
      (FindMatchingRomInFile.entries env fs c hashInfo es n) := by
  induction es with
  | nil =>
    intro n
    rw [entries_nil]
    exact ⟨fun h => absurd rfl h, fun _ g hg => by simp [loadsOf] at hg⟩
  | cons e rest ih =>
    intro n
    have hone : ∀ g ∈ loadsOf [SearchEvent.Load (fs.innerFile c e) n],
        isMatch env hashInfo (fs.innerFile c e) = false → isMatch env hashInfo g = false := by
      intro g hg hm
      simp [loadsOf] at hg
      rw [hg]; exact hm
    have hrest : ∀ k, FirstMatch env hashInfo
        (fun name f => ∃ e2 ∈ e :: rest, name = fs.innerPath c e2 ∧ f = fs.innerFile c e2)
        (FindMatchingRomInFile.entries env fs c hashInfo rest k) :=
      fun k => FirstMatch_mono env hashInfo _ _ _
        (fun name f ⟨e2, he2, h⟩ => ⟨e2, List.mem_cons_of_mem _ he2, h⟩) (ih k)
    rcases entry_cases env hashInfo (fs.innerFile c e) with ⟨hf, hm⟩ | hm | ⟨hok, hno, hm⟩
    · rw [entries_cons_failed env fs c hashInfo e rest n hf]
      exact FirstMatch_after env hashInfo _ _ [SearchEvent.Load (fs.innerFile c e) n] _
        (fun g hg => hone g hg hm) (hrest n)
    · rw [entries_cons_match env fs c hashInfo e rest n hm]
      constructor
      · intro _
        exact ⟨[], fs.innerFile c e, rfl, ⟨e, List.mem_cons_self _ _, rfl, rfl⟩, hm,
          fun g hg => absurd hg (List.not_mem_nil g)⟩
      · intro he
        exact absurd he (hi e)
    · rw [entries_cons_loaded env fs c hashInfo e rest n hok hno]
      split
      · constructor
        · intro hne
          exact absurd rfl hne
        · intro _ g hg
          exact hone g hg hm
      · exact FirstMatch_after env hashInfo _ _ [SearchEvent.Load (fs.innerFile c e) n] _
          (fun g hg => hone g hg hm) (hrest (n + 1))

theorem FindMatchingRomInFile_firstMatch (env : Env) (fs : FileSystem) (c : List Char)
    (hashInfo : HashInfo) (hc : c ≠ []) (hi : ∀ e, fs.innerPath c e ≠ []) (n : Nat) :
    FirstMatch env hashInfo (Names fs [c]) (FindMatchingRomInFile env fs c hashInfo n) := by
  cases hr : fs.GetReader c with
  | none =>
    rw [FindMatchingRomInFile_plain env fs c hashInfo n hr]
    cases hm : isMatch env hashInfo (fs.file c)
    · refine ⟨fun hne => absurd rfl hne, fun _ g hg => ?_⟩
      simp [loadsOf] at hg
      rw [hg]; exact hm
    · refine ⟨fun _ => ⟨[], fs.file c, rfl, ⟨c, List.mem_singleton.mpr rfl,
        Or.inl ⟨hr, rfl, rfl⟩⟩, hm, fun g hg => absurd hg (List.not_mem_nil g)⟩, fun he => ?_⟩
      exact absurd he hc
  | some reader =>
    rw [FindMatchingRomInFile_archive env fs c hashInfo n reader hr]
    have h := entries_firstMatch env fs c hashInfo hi reader.GetFileList n
    have h2 := FirstMatch_after env hashInfo _ _ [SearchEvent.Verify c n] n
      (fun g hg => by simp [loadsOf] at hg) h
    have h3 := FirstMatch_mono env hashInfo _ (Names fs [c]) _
      (fun name f ⟨e, he, h1, h2⟩ => ⟨c, List.mem_singleton.mpr rfl,
        Or.inr ⟨reader, hr, e, he, h1, h2⟩⟩) h2
    refine ⟨fun hne => ?_, fun he => ?_⟩
    · exact h3.1 hne
    · exact h3.2 he

theorem Names_head (fs : FileSystem) (c : List Char) (rest : List (List Char))
    (name : List Char) (f : VirtualFile) (h : Names fs [c] name f) :
    Names fs (c :: rest) name f := by
  obtain ⟨c2, hc2, h2⟩ := h
  rw [List.mem_singleton] at hc2
  exact ⟨c2, hc2 ▸ List.mem_cons_self _ _, h2⟩

theorem Names_tail (fs : FileSystem) (c : List Char) (rest : List (List Char))
    (name : List Char) (f : VirtualFile) (h : Names fs rest name f) :
    Names fs (c :: rest) name f := by
  obtain ⟨c2, hc2, h2⟩ := h
  exact ⟨c2, List.mem_cons_of_mem _ hc2, h2⟩

theorem isEmpty_eq_false_iff (l : List Char) : (!l.isEmpty) = true ↔ l ≠ [] := by
  cases l <;> simp

theorem fast_firstMatch (env : Env) (fs : FileSystem) (lcRomFile : List Char)
    (hashInfo : HashInfo) (hi : ∀ c e, fs.innerPath c e ≠ []) (cands : List (List Char)) :
    (∀ c ∈ cands, c ≠ []) → ∀ n, FirstMatch env hashInfo (Names fs cands)
      (FindMatchingRom.fast env fs lcRomFile hashInfo cands n) := by
  induction cands with
  | nil =>
    intro _ n
    exact ⟨fun h => absurd rfl h, fun _ g hg => by simp [FindMatchingRom.fast, loadsOf] at hg⟩
  | cons c rest ih =>
    intro hc n
    have hrest : ∀ k, FirstMatch env hashInfo (Names fs (c :: rest))
        (FindMatchingRom.fast env fs lcRomFile hashInfo rest k) :=
      fun k => FirstMatch_mono env hashInfo _ _ _ (Names_tail fs c rest)
        (ih (fun c2 h2 => hc c2 (List.mem_cons_of_mem _ h2)) k)
    have hm := FirstMatch_mono env hashInfo _ _ _ (Names_head fs c rest)
      (FindMatchingRomInFile_firstMatch env fs c hashInfo (hc c (List.mem_cons_self _ _))
        (hi c) n)
    rw [FindMatchingRom.fast]
    split
    · dsimp only
      split
      · exact hm
      · rename_i hne
        have he : (FindMatchingRomInFile env fs c hashInfo n).1 = [] := by
          by_contra hcon
          exact hne ((isEmpty_eq_false_iff _).mpr hcon)
        exact FirstMatch_after env hashInfo _ _ _ _ (hm.2 he) (hrest _)
    · exact hrest n

theorem slow_firstMatch (env : Env) (fs : FileSystem) (hashInfo : HashInfo)
    (hi : ∀ c e, fs.innerPath c e ≠ []) (cands : List (List Char)) :
    (∀ c ∈ cands, c ≠ []) → ∀ n, FirstMatch env hashInfo (Names fs cands)
      (FindMatchingRom.slow env fs hashInfo cands n) := by
  induction cands with
  | nil =>
    intro _ n
    exact ⟨fun h => absurd rfl h, fun _ g hg => by simp [FindMatchingRom.slow, loadsOf] at hg⟩
  | cons c rest ih =>
    intro hc n
    have hrest : ∀ k, FirstMatch env hashInfo (Names fs (c :: rest))
        (FindMatchingRom.slow env fs hashInfo rest k) :=
      fun k => FirstMatch_mono env hashInfo _ _ _ (Names_tail fs c rest)
        (ih (fun c2 h2 => hc c2 (List.mem_cons_of_mem _ h2)) k)
    have hm := FirstMatch_mono env hashInfo _ _ _ (Names_head fs c rest)
      (FindMatchingRomInFile_firstMatch env fs c hashInfo (hc c (List.mem_cons_self _ _))
        (hi c) n)
    rw [FindMatchingRom.slow]
    dsimp only
    split
    · exact hm
    · rename_i hne
      have he : (FindMatchingRomInFile env fs c hashInfo n).1 = [] := by
        by_contra hcon
        exact hne ((isEmpty_eq_false_iff _).mpr hcon)
      split
      · refine ⟨fun h => absurd rfl h, fun _ g hg => ?_⟩
        have hg2 : g ∈ loadsOf ((FindMatchingRomInFile env fs c hashInfo n).2.2
            ++ [SearchEvent.GiveUp]) := hg
        rw [loadsOf_append] at hg2
        rcases List.mem_append.mp hg2 with hg3 | hg3
        · exact hm.2 he g hg3
        · simp [loadsOf] at hg3
      · exact FirstMatch_after env hashInfo _ _ _ _ (hm.2 he) (hrest _)

theorem FindMatchingRom_firstMatch (env : Env) (fs : FileSystem) (romFiles : List (List Char))
    (romFilename : List Char) (hashInfo : HashInfo) (useFastSearch : Bool)
    (hc : ∀ c ∈ romFiles, c ≠ []) (hi : ∀ c e, fs.innerPath c e ≠ []) :
    FirstMatch env hashInfo (Names fs romFiles)
      (FindMatchingRom env fs romFiles romFilename hashInfo useFastSearch) := by
  unfold FindMatchingRom
  cases useFastSearch
  · exact slow_firstMatch env fs hashInfo hi romFiles hc 0
  · exact fast_firstMatch env fs (tolower romFilename) hashInfo hi romFiles hc 0

/-! ## A returned source was loaded last and is a verified match -/

theorem EndsInMatch_after (env : Env) (hashInfo : HashInfo)
    (r : List Char × Nat × List SearchEvent) (evs : List SearchEvent) (k : Nat)
    (h : EndsInMatch env hashInfo r) : EndsInMatch env hashInfo (r.1, k, evs ++ r.2.2) := by
  intro hne
  obtain ⟨pre, f, h1, h2⟩ := h hne
  refine ⟨loadsOf evs ++ pre, f, ?_, h2⟩
  show loadsOf (evs ++ r.2.2) = loadsOf evs ++ pre ++ [f]
  rw [loadsOf_append, h1, List.append_assoc]

theorem entries_endsInMatch (env : Env) (fs : FileSystem) (c : List Char) (hashInfo : HashInfo)
    (es : List (List Char)) :
    ∀ n, EndsInMatch env hashInfo (FindMatchingRomInFile.entries env fs c hashInfo es n) := by
  induction es with
  | nil => intro n hne; exact absurd rfl hne
  | cons e rest ih =>
    intro n
    rcases entry_cases env hashInfo (fs.innerFile c e) with ⟨hf, _⟩ | hm | ⟨hok, hno, _⟩
    · rw [entries_cons_failed env fs c hashInfo e rest n hf]
      exact EndsInMatch_after env hashInfo _ [SearchEvent.Load (fs.innerFile c e) n] _ (ih n)
    · rw [entries_cons_match env fs c hashInfo e rest n hm]
      intro _
      exact ⟨[], fs.innerFile c e, rfl, hm⟩
    · rw [entries_cons_loaded env fs c hashInfo e rest n hok hno]
      split
      · intro hne; exact absurd rfl hne
      · exact EndsInMatch_after env hashInfo _ [SearchEvent.Load (fs.innerFile c e) n] _
          (ih (n + 1))

theorem FindMatchingRomInFile_endsInMatch (env : Env) (fs : FileSystem) (c : List Char)
    (hashInfo : HashInfo) (n : Nat) :
    EndsInMatch env hashInfo (FindMatchingRomInFile env fs c hashInfo n) := by
  cases hr : fs.GetReader c with
  | none =>
    rw [FindMatchingRomInFile_plain env fs c hashInfo n hr]
    cases hm : isMatch env hashInfo (fs.file c)
    · intro hne; exact absurd rfl hne
    · intro _; exact ⟨[], fs.file c, rfl, hm⟩
  | some reader =>
    rw [FindMatchingRomInFile_archive env fs c hashInfo n reader hr]
    exact EndsInMatch_after env hashInfo _ [SearchEvent.Verify c n] _
      (entries_endsInMatch env fs c hashInfo reader.GetFileList n)

theorem fast_endsInMatch (env : Env) (fs : FileSystem) (lcRomFile : List Char)
    (hashInfo : HashInfo) (cands : List (List Char)) :
    ∀ n, EndsInMatch env hashInfo (FindMatchingRom.fast env fs lcRomFile hashInfo cands n) := by
  induction cands with
  | nil => intro n hne; exact absurd rfl hne
  | cons c rest ih =>
    intro n
    rw [FindMatchingRom.fast]
    split
    · dsimp only
      split
      · exact FindMatchingRomInFile_endsInMatch env fs c hashInfo n
      · exact EndsInMatch_after env hashInfo _ _ _ (ih _)
    · exact ih n

theorem slow_endsInMatch (env : Env) (fs : FileSystem) (hashInfo : HashInfo)
    (cands : List (List Char)) :
    ∀ n, EndsInMatch env hashInfo (FindMatchingRom.slow env fs hashInfo cands n) := by
  induction cands with
  | nil => intro n hne; exact absurd rfl hne
  | cons c rest ih =>
    intro n
    rw [FindMatchingRom.slow]
    dsimp only
    split
    · exact FindMatchingRomInFile_endsInMatch env fs c hashInfo n
    · split
      · intro hne; exact absurd rfl hne
      · exact EndsInMatch_after env hashInfo _ _ _ (ih _)

theorem FindMatchingRom_endsInMatch (env : Env) (fs : FileSystem) (romFiles : List (List Char))
    (romFilename : List Char) (hashInfo : HashInfo) (useFastSearch : Bool) :
    EndsInMatch env hashInfo
      (FindMatchingRom env fs romFiles romFilename hashInfo useFastSearch) := by
  unfold FindMatchingRom
  cases useFastSearch
  · exact slow_endsInMatch env fs hashInfo romFiles 0
  · exact fast_endsInMatch env fs (tolower romFilename) hashInfo romFiles 0

theorem isMatch_iff (env : Env) (hashInfo : HashInfo) (f : VirtualFile) :
    isMatch env hashInfo f = true ↔
      (LoadFile env (RomLoader.create true) f).1 = true ∧
      (hashInfo.Crc32 = (GetRomData (LoadFile env (RomLoader.create true) f).2.1).Info.Hash.Crc32 ∨
       hashInfo.Sha1 = (GetRomData (LoadFile env (RomLoader.create true) f).2.1).Info.Hash.Sha1) := by
  simp [isMatch, hashMatches, GetRomData]

/-! ## Claims about the match test and about failed loads -/

/-- C14: the match test is an OR of the two identity fields. A plain-file
candidate whose load succeeds is returned by `FindMatchingRomInFile` when its
checksum is the target's, whatever the digests, and likewise when its digest
is the target's; it is not returned when neither agrees. The same holds for
an archive entry in the entry loop: it is returned when its load succeeds and
either field agrees, and passed over when neither does. At the head of the
list of a slow search, or of a fast search whose name test it passes, such a
candidate is the result. For the whole search, in either mode: a non-empty
result comes from the load made last, which succeeded with checksum or digest
equal to the target's; the result is empty when neither field agrees for any
source loaded; and, names being non-empty, every source loaded successfully
with either field agreeing is the last one loaded and the one returned. -/
theorem match_is_checksum_or_digest (env : Env) (fs : FileSystem) (hashInfo : HashInfo)
    (c : List Char) (n : Nat) (romFiles : List (List Char)) (romFilename : List Char)
    (useFastSearch : Bool) (a e : List Char) (es : List (List Char))
    (hplain : fs.GetReader c = none)
    (hok : (LoadFile env (RomLoader.create true) (fs.file c)).1 = true) :
    (hashInfo.Crc32
        = (GetRomData (LoadFile env (RomLoader.create true) (fs.file c)).2.1).Info.Hash.Crc32 →
      (FindMatchingRomInFile env fs c hashInfo n).1 = c) ∧
    (hashInfo.Sha1
        = (GetRomData (LoadFile env (RomLoader.create true) (fs.file c)).2.1).Info.Hash.Sha1 →
      (FindMatchingRomInFile env fs c hashInfo n).1 = c) ∧
    (hashInfo.Crc32
        ≠ (GetRomData (LoadFile env (RomLoader.create true) (fs.file c)).2.1).Info.Hash.Crc32 →
      hashInfo.Sha1
        ≠ (GetRomData (LoadFile env (RomLoader.create true) (fs.file c)).2.1).Info.Hash.Sha1 →
      (FindMatchingRomInFile env fs c hashInfo n).1 = []) ∧
    (hashInfo.Crc32
          = (GetRomData (LoadFile env (RomLoader.create true) (fs.file c)).2.1).Info.Hash.Crc32 ∨
        hashInfo.Sha1
          = (GetRomData (LoadFile env (RomLoader.create true) (fs.file c)).2.1).Info.Hash.Sha1 →
      c ≠ [] → (FindMatchingRom env fs (c :: romFiles) romFilename hashInfo false).1 = c) ∧
    ((FindMatchingRom env fs romFiles romFilename hashInfo useFastSearch).1 ≠ [] →
      ∃ pre f,
        loadsOf (FindMatchingRom env fs romFiles romFilename hashInfo useFastSearch).2.2
          = pre ++ [f] ∧
        (LoadFile env (RomLoader.create true) f).1 = true ∧
        (hashInfo.Crc32
            = (GetRomData (LoadFile env (RomLoader.create true) f).2.1).Info.Hash.Crc32 ∨
          hashInfo.Sha1
            = (GetRomData (LoadFile env (RomLoader.create true) f).2.1).Info.Hash.Sha1)) ∧
    ((∀ f ∈ loadsOf (FindMatchingRom env fs romFiles romFilename hashInfo useFastSearch).2.2,
        (LoadFile env (RomLoader.create true) f).1 = true →
        hashInfo.Crc32
            ≠ (GetRomData (LoadFile env (RomLoader.create true) f).2.1).Info.Hash.Crc32 ∧
          hashInfo.Sha1
            ≠ (GetRomData (LoadFile env (RomLoader.create true) f).2.1).Info.Hash.Sha1) →
      (FindMatchingRom env fs romFiles romFilename hashInfo useFastSearch).1 = []) ∧
    ((LoadFile env (RomLoader.create true) (fs.innerFile a e)).1 = true →
      (hashInfo.Crc32
          = (GetRomData (LoadFile env (RomLoader.create true)
              (fs.innerFile a e)).2.1).Info.Hash.Crc32 ∨
        hashInfo.Sha1
          = (GetRomData (LoadFile env (RomLoader.create true)
              (fs.innerFile a e)).2.1).Info.Hash.Sha1) →
      FindMatchingRomInFile.entries env fs a hashInfo (e :: es) n
        = (fs.innerPath a e, n, [SearchEvent.Load (fs.innerFile a e) n])) ∧
    ((LoadFile env (RomLoader.create true) (fs.innerFile a e)).1 = true →
      hashInfo.Crc32
        ≠ (GetRomData (LoadFile env (RomLoader.create true)
            (fs.innerFile a e)).2.1).Info.Hash.Crc32 →
      hashInfo.Sha1
        ≠ (GetRomData (LoadFile env (RomLoader.create true)
            (fs.innerFile a e)).2.1).Info.Hash.Sha1 →
      FindMatchingRomInFile.entries env fs a hashInfo (e :: es) n
        = if n + 1 > MaxFilesToCheck then
            ([], n + 1, [SearchEvent.Load (fs.innerFile a e) n])
          else
            ((FindMatchingRomInFile.entries env fs a hashInfo es (n + 1)).1,
             (FindMatchingRomInFile.entries env fs a hashInfo es (n + 1)).2.1,
             SearchEvent.Load (fs.innerFile a e) n
               :: (FindMatchingRomInFile.entries env fs a hashInfo es (n + 1)).2.2)) ∧
    (hashInfo.Crc32
          = (GetRomData (LoadFile env (RomLoader.create true) (fs.file c)).2.1).Info.Hash.Crc32 ∨
        hashInfo.Sha1
          = (GetRomData (LoadFile env (RomLoader.create true) (fs.file c)).2.1).Info.Hash.Sha1 →
      c ≠ [] →
      ((find (tolower c) (tolower romFilename)).isSome
        && decide (env.GetFilename (tolower romFilename) true
            = env.GetFilename (tolower c) true)) = true →
      (FindMatchingRom env fs (c :: romFiles) romFilename hashInfo true).1 = c) ∧
    ((∀ c2 ∈ romFiles, c2 ≠ []) → (∀ c2 e2, fs.innerPath c2 e2 ≠ []) →
      ∀ f ∈ loadsOf (FindMatchingRom env fs romFiles romFilename hashInfo useFastSearch).2.2,
        (LoadFile env (RomLoader.create true) f).1 = true →
        (hashInfo.Crc32
            = (GetRomData (LoadFile env (RomLoader.create true) f).2.1).Info.Hash.Crc32 ∨
          hashInfo.Sha1
            = (GetRomData (LoadFile env (RomLoader.create true) f).2.1).Info.Hash.Sha1) →
        (FindMatchingRom env fs romFiles romFilename hashInfo useFastSearch).1 ≠ [] ∧
        (loadsOf (FindMatchingRom env fs romFiles romFilename hashInfo
          useFastSearch).2.2).getLast? = some f ∧
        Names fs romFiles
          (FindMatchingRom env fs romFiles romFilename hashInfo useFastSearch).1 f) := by
  have hstep := FindMatchingRomInFile_plain env fs c hashInfo n hplain
  have hend := FindMatchingRom_endsInMatch env fs romFiles romFilename hashInfo useFastSearch
  refine ⟨fun h => ?_, fun h => ?_, fun h1 h2 => ?_, fun h hc => ?_, fun hne => ?_,
    fun hall => ?_, fun hoke hor => ?_, fun hoke h1 h2 => ?_, fun h hc hpass => ?_,
    fun hcs his f hf hokf hor => ?_⟩
  · rw [hstep, if_pos ((isMatch_iff env hashInfo _).mpr ⟨hok, Or.inl h⟩)]
  · rw [hstep, if_pos ((isMatch_iff env hashInfo _).mpr ⟨hok, Or.inr h⟩)]
  · have hm : ¬ isMatch env hashInfo (fs.file c) = true := fun hm =>
      ((isMatch_iff env hashInfo _).mp hm).2.elim h1 h2
    rw [hstep, if_neg hm]
  · have h0 := FindMatchingRomInFile_plain env fs c hashInfo 0 hplain
    rw [if_pos ((isMatch_iff env hashInfo _).mpr ⟨hok, h⟩)] at h0
    unfold FindMatchingRom
    simp only [Bool.false_eq_true, if_false]
    rw [FindMatchingRom.slow, h0]
    dsimp only
    rw [if_pos ((isEmpty_eq_false_iff c).mpr hc)]
  · obtain ⟨pre, f, hl, hm⟩ := hend hne
    exact ⟨pre, f, hl, (isMatch_iff env hashInfo f).mp hm⟩
  · by_contra hne
    obtain ⟨pre, f, hl, hm⟩ := hend hne
    have hmem : f ∈ loadsOf
        (FindMatchingRom env fs romFiles romFilename hashInfo useFastSearch).2.2 := by
      rw [hl]; simp
    obtain ⟨hok2, hor⟩ := (isMatch_iff env hashInfo f).mp hm
    exact hor.elim (hall f hmem hok2).1 (hall f hmem hok2).2
  · exact entries_cons_match env fs a hashInfo e es n
      ((isMatch_iff env hashInfo _).mpr ⟨hoke, hor⟩)
  · have hno : hashMatches hashInfo
        (LoadFile env (RomLoader.create true) (fs.innerFile a e)).2.1._romData = false := by
      cases hh : hashMatches hashInfo
        (LoadFile env (RomLoader.create true) (fs.innerFile a e)).2.1._romData
      · rfl
      · have hm : isMatch env hashInfo (fs.innerFile a e) = true := by
          simp [isMatch, hoke, hh]
        exact (((isMatch_iff env hashInfo _).mp hm).2.elim h1 h2).elim
    exact entries_cons_loaded env fs a hashInfo e es n hoke hno
  · have h0 := FindMatchingRomInFile_plain env fs c hashInfo 0 hplain
    rw [if_pos ((isMatch_iff env hashInfo _).mpr ⟨hok, h⟩)] at h0
    unfold FindMatchingRom
    simp only [if_true]
    rw [FindMatchingRom.fast, if_pos hpass, h0]
    dsimp only
    rw [if_pos ((isEmpty_eq_false_iff c).mpr hc)]
  · have hfm := FindMatchingRom_firstMatch env fs romFiles romFilename hashInfo useFastSearch
      hcs his
    have hm : isMatch env hashInfo f = true := (isMatch_iff env hashInfo f).mpr ⟨hokf, hor⟩
    have hne : (FindMatchingRom env fs romFiles romFilename hashInfo useFastSearch).1 ≠ [] := by
      intro he
      have := hfm.2 he f hf
      rw [hm] at this
      exact Bool.noConfusion this
    obtain ⟨pre, f2, hl, hnames, _, hpre⟩ := hfm.1 hne
    have hff : f = f2 := by
      rw [hl] at hf
      rcases List.mem_append.mp hf with h1 | h1
      · have := hpre f h1
        rw [hm] at this
        exact Bool.noConfusion this
      · exact List.mem_singleton.mp h1
    refine ⟨hne, ?_, hff ▸ hnames⟩
    rw [hl, List.getLast?_concat, hff]

/-- A concrete instance: a cartridge image whose checksum is the target's and
whose digest is not is returned, as a plain file and as an archive entry. -/
theorem match_is_checksum_or_digest_witness :
    demoFs.GetReader "a.nes".toList = none ∧
    (LoadFile demoEnv (RomLoader.create true) (demoFs.file "a.nes".toList)).1 = true ∧
    crcOnlyHash.Sha1 ≠ (GetRomData (LoadFile demoEnv (RomLoader.create true)
      (demoFs.file "a.nes".toList)).2.1).Info.Hash.Sha1 ∧
    (FindMatchingRomInFile demoEnv demoFs "a.nes".toList crcOnlyHash 0).1 = "a.nes".toList ∧
    crcOnlyHash.Sha1 ≠ (GetRomData (LoadFile demoEnv (RomLoader.create true)
      (demoFs.innerFile "x/foo.zip".toList "ok.nes".toList)).2.1).Info.Hash.Sha1 ∧
    FindMatchingRomInFile.entries demoEnv demoFs "x/foo.zip".toList crcOnlyHash
        ["ok.nes".toList] 0
      = (demoFs.innerPath "x/foo.zip".toList "ok.nes".toList, 0,
          [SearchEvent.Load (demoFs.innerFile "x/foo.zip".toList "ok.nes".toList) 0]) :=
  have h := match_is_checksum_or_digest demoEnv demoFs crcOnlyHash "a.nes".toList 0
    ["a.nes".toList] [] false "x/foo.zip".toList "ok.nes".toList [] (by decide) (by decide)
  ⟨by decide, by decide, by decide, h.1 (by decide), by decide,
    h.2.2.2.2.2.2.1 (by decide) (Or.inl (by decide))⟩

/-- C15: a load that fails is a non-match and the search goes on. A plain-file
candidate whose load fails is never returned by `FindMatchingRomInFile`,
whatever the target (so also when the checksum computed for it is the
target's): the call returns the empty string after that one load. An archive
entry whose load fails is skipped and the loop goes on with the following
entries. In the slow search the loop goes on with the following candidates
(unless the ceiling is passed, which ends every slow search); in the fast
search it goes on with the following candidates. And a source any search
returns was loaded successfully. -/
theorem failed_load_is_skipped (env : Env) (fs : FileSystem) (hashInfo : HashInfo)
    (c a e lcRomFile : List Char) (es rest : List (List Char)) (n : Nat)
    (hplain : fs.GetReader c = none)
    (hfail : (LoadFile env (RomLoader.create true) (fs.file c)).1 = false)
    (hentry : (LoadFile env (RomLoader.create true) (fs.innerFile a e)).1 = false) :
    FindMatchingRomInFile env fs c hashInfo n
      = ([], n + 1, [SearchEvent.Verify c n, SearchEvent.Load (fs.file c) n]) ∧
    FindMatchingRomInFile.entries env fs a hashInfo (e :: es) n
      = ((FindMatchingRomInFile.entries env fs a hashInfo es n).1,
         (FindMatchingRomInFile.entries env fs a hashInfo es n).2.1,
         SearchEvent.Load (fs.innerFile a e) n
           :: (FindMatchingRomInFile.entries env fs a hashInfo es n).2.2) ∧
    FindMatchingRom.slow env fs hashInfo (c :: rest) n
      = (if n + 1 + 1 > MaxFilesToCheck then
          ([], n + 1 + 1, [SearchEvent.Verify c n, SearchEvent.Load (fs.file c) n]
            ++ [SearchEvent.GiveUp])
        else
          ((FindMatchingRom.slow env fs hashInfo rest (n + 1 + 1)).1,
           (FindMatchingRom.slow env fs hashInfo rest (n + 1 + 1)).2.1,
           [SearchEvent.Verify c n, SearchEvent.Load (fs.file c) n]
             ++ (FindMatchingRom.slow env fs hashInfo rest (n + 1 + 1)).2.2)) ∧
    FindMatchingRom.fast env fs lcRomFile hashInfo (c :: rest) n
      = (if ((find (tolower c) lcRomFile).isSome
            && decide (env.GetFilename lcRomFile true = env.GetFilename (tolower c) true))
            = true then
          ((FindMatchingRom.fast env fs lcRomFile hashInfo rest (n + 1)).1,
           (FindMatchingRom.fast env fs lcRomFile hashInfo rest (n + 1)).2.1,
           [SearchEvent.Verify c n, SearchEvent.Load (fs.file c) n]
             ++ (FindMatchingRom.fast env fs lcRomFile hashInfo rest (n + 1)).2.2)
        else FindMatchingRom.fast env fs lcRomFile hashInfo rest n) ∧
    (∀ (romFiles : List (List Char)) (romFilename : List Char) (useFastSearch : Bool),
      (FindMatchingRom env fs romFiles romFilename hashInfo useFastSearch).1 ≠ [] →
      ∃ pre f,
        loadsOf (FindMatchingRom env fs romFiles romFilename hashInfo useFastSearch).2.2
          = pre ++ [f] ∧
        (LoadFile env (RomLoader.create true) f).1 = true) := by
  have hm : ¬ isMatch env hashInfo (fs.file c) = true := fun hm =>
    absurd ((isMatch_iff env hashInfo _).mp hm).1 (by rw [hfail]; decide)
  have hstep : FindMatchingRomInFile env fs c hashInfo n
      = ([], n + 1, [SearchEvent.Verify c n, SearchEvent.Load (fs.file c) n]) := by
    rw [FindMatchingRomInFile_plain env fs c hashInfo n hplain, if_neg hm]
  refine ⟨hstep, entries_cons_failed env fs a hashInfo e es n hentry, ?_, ?_, ?_⟩
  · rw [FindMatchingRom.slow, hstep]
    simp
  · rw [FindMatchingRom.fast, hstep]
    simp
  · intro romFiles romFilename useFastSearch hne
    obtain ⟨pre, f, hl, hmf⟩ :=
      FindMatchingRom_endsInMatch env fs romFiles romFilename hashInfo useFastSearch hne
    exact ⟨pre, f, hl, ((isMatch_iff env hashInfo f).mp hmf).1⟩

/-- A concrete instance: `empty.nes` cannot be loaded; with a target that has
the checksum of every cartridge image, the slow search skips it and returns
the candidate after it. -/
theorem failed_load_is_skipped_witness :
    demoFs.GetReader "empty.nes".toList = none ∧
    (LoadFile demoEnv (RomLoader.create true) (demoFs.file "empty.nes".toList)).1 = false ∧
    (LoadFile demoEnv (RomLoader.create true)
      (demoFs.innerFile "mix.zip".toList "bad".toList)).1 = false ∧
    FindMatchingRomInFile demoEnv demoFs "empty.nes".toList crcOnlyHash 0
      = ([], 1, [SearchEvent.Verify "empty.nes".toList 0,
          SearchEvent.Load (demoFs.file "empty.nes".toList) 0]) ∧
    (FindMatchingRom demoEnv demoFs ["empty.nes".toList, "a.nes".toList] [] crcOnlyHash
      false).1 = "a.nes".toList :=
  ⟨by decide, by decide, by decide,
    (failed_load_is_skipped demoEnv demoFs crcOnlyHash "empty.nes".toList "mix.zip".toList
      "bad".toList [] ["ok.nes".toList] ["a.nes".toList] 0 (by decide) (by decide)
      (by decide)).1,
    by decide⟩

/-! ## Claims about the result of the search -/

/-- C18: the slow search ignores the file name: for any two values of
`romFilename`, `FindMatchingRom` with `useFastSearch = false` returns the same
string, ends with the same `iterationCount` and makes the same calls in the
same order. -/
theorem slow_search_ignores_name (env : Env) (fs : FileSystem) (romFiles : List (List Char))
    (name₁ name₂ : List Char) (hashInfo : HashInfo) :
    FindMatchingRom env fs romFiles name₁ hashInfo false
      = FindMatchingRom env fs romFiles name₂ hashInfo false ∧
    verifiedOf (FindMatchingRom env fs romFiles name₁ hashInfo false).2.2
      = verifiedOf (FindMatchingRom env fs romFiles name₂ hashInfo false).2.2 ∧
    loadsOf (FindMatchingRom env fs romFiles name₁ hashInfo false).2.2
      = loadsOf (FindMatchingRom env fs romFiles name₂ hashInfo false).2.2 :=
  ⟨rfl, rfl, rfl⟩

/-! ## The empty digest of media-archive images -/

theorem LoadFile_true_inv (env : Env) (ldr : RomLoader) (romFile : VirtualFile)
    (h : (LoadFile env ldr romFile).1 = true) :
    romFile.IsValid = true ∧ 15 ≤ romFile.data.length := by
  cases hv : romFile.IsValid with
  | false =>
    rw [LoadFile_invalid env ldr romFile hv] at h
    exact absurd h Bool.false_ne_true
  | true =>
    by_cases hl : 15 ≤ romFile.data.length
    · exact ⟨rfl, hl⟩
    · rw [LoadFile_short env ldr romFile hv (by omega)] at h
      exact absurd h Bool.false_ne_true

theorem LoadFile_StudyBox_Sha1 (env : Env) (romFile : VirtualFile)
    (hv : romFile.IsValid = true) (hl : 15 ≤ romFile.data.length)
    (hsig : bytes ['S', 'T', 'B', 'X'] <+: romFile.data)
    (hkeep : ∀ c rd d path, (env.StudyBoxLoader c rd d path).Info.Hash.Sha1 = rd.Info.Hash.Sha1) :
    (GetRomData (LoadFile env (RomLoader.create true) romFile).2.1).Info.Hash.Sha1 = [] := by
  have hsel : selectParser signatureTable romFile.data = some Parser.StudyBox :=
    selectParser_of_pattern romFile.data ([bytes ['S', 'T', 'B', 'X']], Parser.StudyBox)
      (by decide) (bytes ['S', 'T', 'B', 'X']) (by decide) hsig
  have hraw : (LoadFile.prepared env (RomLoader.create true) romFile).RawData
      = romFile.data := rfl
  have hd : LoadFile.dispatch env (RomLoader.create true)._checkOnly
      (LoadFile.prepared env (RomLoader.create true) romFile) (env.GetCRC romFile.data) romFile =
      (env.StudyBoxLoader (RomLoader.create true)._checkOnly
        (LoadFile.prepared env (RomLoader.create true) romFile) romFile.data romFile.filePath,
        true, [Event.LoadRom Parser.StudyBox (some (RomLoader.create true)._checkOnly) none]) := by
    rw [dispatch_eq, hraw, hsel]
  have hok := LoadFile_ok env (RomLoader.create true) romFile hv hl
  rw [hd] at hok
  rw [hok]
  exact (finish_Sha1_skipped _ _ _).trans ((hkeep _ _ _ _).trans rfl)

/-- C20: with a target whose digest is empty, a media-archive image (`STBX`)
whose load succeeds, read by a loader that does not write the digest, is a
match whatever its checksum: the record's digest is still empty after
`LoadFile` and the match test is an OR. As a plain-file candidate it is
returned by `FindMatchingRomInFile`; as an archive entry it is returned by
the entry loop. -/
theorem empty_digest_matches_StudyBox (env : Env) (fs : FileSystem) (hashInfo : HashInfo)
    (f : VirtualFile) (n : Nat)
    (hkeep : ∀ c rd d path, (env.StudyBoxLoader c rd d path).Info.Hash.Sha1 = rd.Info.Hash.Sha1)
    (hempty : hashInfo.Sha1 = [])
    (hsig : bytes ['S', 'T', 'B', 'X'] <+: f.data)
    (hok : (LoadFile env (RomLoader.create true) f).1 = true) :
    (GetRomData (LoadFile env (RomLoader.create true) f).2.1).Info.Hash.Sha1 = [] ∧
    hashMatches hashInfo (LoadFile env (RomLoader.create true) f).2.1._romData = true ∧
    (∀ c, fs.GetReader c = none → fs.file c = f →
      FindMatchingRomInFile env fs c hashInfo n
        = (c, n, [SearchEvent.Verify c n, SearchEvent.Load f n])) ∧
    (∀ a e es, fs.innerFile a e = f →
      FindMatchingRomInFile.entries env fs a hashInfo (e :: es) n
        = (fs.innerPath a e, n, [SearchEvent.Load f n])) := by
  obtain ⟨hv, hl⟩ := LoadFile_true_inv env _ f hok
  have hsha := LoadFile_StudyBox_Sha1 env f hv hl hsig hkeep
  have hm : isMatch env hashInfo f = true :=
    (isMatch_iff env hashInfo f).mpr ⟨hok, Or.inr (hempty.trans hsha.symm)⟩
  refine ⟨hsha, ?_, ?_, ?_⟩
  · simp only [isMatch, Bool.and_eq_true] at hm
    exact hm.2
  · intro c hplain hf
    rw [FindMatchingRomInFile_plain env fs c hashInfo n hplain, hf, if_pos hm]
  · intro a e es hf
    have := entries_cons_match env fs a hashInfo e es n (by rw [hf]; exact hm)
    rw [this, hf]

/-- A concrete instance: the media-archive image of `demoFs` is returned for a
target with an empty digest and a checksum no file has. -/
theorem empty_digest_matches_StudyBox_witness :
    emptyDigestHash.Sha1 = [] ∧
    bytes ['S', 'T', 'B', 'X'] <+: (demoFs.file "tape.studybox".toList).data ∧
    (LoadFile demoEnv (RomLoader.create true) (demoFs.file "tape.studybox".toList)).1 = true ∧
    emptyDigestHash.Crc32 ≠ (GetRomData (LoadFile demoEnv (RomLoader.create true)
      (demoFs.file "tape.studybox".toList)).2.1).Info.Hash.Crc32 ∧
    FindMatchingRomInFile demoEnv demoFs "tape.studybox".toList emptyDigestHash 0
      = ("tape.studybox".toList, 0, [SearchEvent.Verify "tape.studybox".toList 0,
          SearchEvent.Load (demoFs.file "tape.studybox".toList) 0]) :=
  ⟨rfl, by decide, by decide, by decide,
    (empty_digest_matches_StudyBox demoEnv demoFs emptyDigestHash
      (demoFs.file "tape.studybox".toList) 0 (fun _ _ _ _ => rfl) rfl (by decide)
      (by decide)).2.2.1 "tape.studybox".toList (by decide) rfl⟩

/-! ## The ceiling in the slow search -/

theorem WithinBudget_after (r : List Char × Nat × List SearchEvent) (evs : List SearchEvent)
    (hevs : ∀ k ∈ countsOf evs, k ≤ MaxFilesToCheck) (h : WithinBudget r) :
    WithinBudget (r.1, r.2.1, evs ++ r.2.2) := by
  refine ⟨fun k hk => ?_, h.2⟩
  have hk2 : k ∈ countsOf (evs ++ r.2.2) := hk
  rw [countsOf_append] at hk2
  rcases List.mem_append.mp hk2 with h1 | h1
  · exact hevs k h1
  · exact h.1 k h1

theorem entries_withinBudget (env : Env) (fs : FileSystem) (c : List Char) (hashInfo : HashInfo)
    (es : List (List Char)) :
    ∀ n, n ≤ MaxFilesToCheck →
      WithinBudget (FindMatchingRomInFile.entries env fs c hashInfo es n) := by
  induction es with
  | nil =>
    intro n hn
    exact ⟨fun k hk => by simp [FindMatchingRomInFile.entries, countsOf] at hk, fun _ => hn⟩
  | cons e rest ih =>
    intro n hn
    have hone : ∀ k ∈ countsOf [SearchEvent.Load (fs.innerFile c e) n],
        k ≤ MaxFilesToCheck := by
      intro k hk
      simp [countsOf] at hk
      rw [hk]; exact hn
    rcases entry_cases env hashInfo (fs.innerFile c e) with ⟨hf, _⟩ | hm | ⟨hok, hno, _⟩
    · rw [entries_cons_failed env fs c hashInfo e rest n hf]
      exact WithinBudget_after _ [SearchEvent.Load (fs.innerFile c e) n] hone (ih n hn)
    · rw [entries_cons_match env fs c hashInfo e rest n hm]
      exact ⟨hone, fun _ => hn⟩
    · rw [entries_cons_loaded env fs c hashInfo e rest n hok hno]
      split
      · exact ⟨hone, fun hne => absurd rfl hne⟩
      · rename_i hle
        exact WithinBudget_after _ [SearchEvent.Load (fs.innerFile c e) n] hone
          (ih (n + 1) (by omega))

theorem FindMatchingRomInFile_withinBudget (env : Env) (fs : FileSystem) (c : List Char)
    (hashInfo : HashInfo) (n : Nat) (hn : n ≤ MaxFilesToCheck) :
    WithinBudget (FindMatchingRomInFile env fs c hashInfo n) := by
  have hone : ∀ (evs : List SearchEvent), (∀ k ∈ countsOf evs, k = n) →
      ∀ k ∈ countsOf evs, k ≤ MaxFilesToCheck := fun evs h k hk => (h k hk) ▸ hn
  cases hr : fs.GetReader c with
  | none =>
    rw [FindMatchingRomInFile_plain env fs c hashInfo n hr]
    split
    · exact ⟨hone _ (fun k hk => by simpa [countsOf] using hk), fun _ => hn⟩
    · exact ⟨hone _ (fun k hk => by simpa [countsOf] using hk), fun hne => absurd rfl hne⟩
  | some reader =>
    rw [FindMatchingRomInFile_archive env fs c hashInfo n reader hr]
    exact WithinBudget_after _ [SearchEvent.Verify c n]
      (hone _ (fun k hk => by simpa [countsOf] using hk))
      (entries_withinBudget env fs c hashInfo reader.GetFileList n hn)

theorem slow_withinBudget (env : Env) (fs : FileSystem) (hashInfo : HashInfo)
    (cands : List (List Char)) :
    ∀ n, n ≤ MaxFilesToCheck →
      WithinBudget (FindMatchingRom.slow env fs hashInfo cands n) ∧
      (MaxFilesToCheck < (FindMatchingRom.slow env fs hashInfo cands n).2.1 →
        (FindMatchingRom.slow env fs hashInfo cands n).2.2.getLast?
          = some SearchEvent.GiveUp) := by
  induction cands with
  | nil =>
    intro n hn
    refine ⟨⟨fun k hk => by simp [FindMatchingRom.slow, countsOf] at hk, fun _ => hn⟩, ?_⟩
    intro h
    simp only [FindMatchingRom.slow] at h
    omega
  | cons c rest ih =>
    intro n hn
    have hm := FindMatchingRomInFile_withinBudget env fs c hashInfo n hn
    rw [FindMatchingRom.slow]
    dsimp only
    split
    · rename_i hne
      refine ⟨hm, fun h => ?_⟩
      have := hm.2 ((isEmpty_eq_false_iff _).mp hne)
      omega
    · split
      · refine ⟨⟨fun k hk => ?_, fun hne => absurd rfl hne⟩, fun _ => ?_⟩
        · have hk2 : k ∈ countsOf ((FindMatchingRomInFile env fs c hashInfo n).2.2
              ++ [SearchEvent.GiveUp]) := hk
          rw [countsOf_append] at hk2
          rcases List.mem_append.mp hk2 with h1 | h1
          · exact hm.1 k h1
          · simp [countsOf] at h1
        · exact List.getLast?_concat _
      · rename_i hle
        obtain ⟨hr, hlast⟩ := ih ((FindMatchingRomInFile env fs c hashInfo n).2.1 + 1)
          (by omega)
        refine ⟨WithinBudget_after _ _ hm.1 hr, fun h => ?_⟩
        rw [List.getLast?_append, hlast h]
        rfl

/-- C13, as stated, fails in the fast search: after the 101 loadable entries of
the archive `x/foo.zip` the counter is above the ceiling, and the next
candidate that passes the name filter, `y/foo.nes`, is still verified and
loaded, with `iterationCount` at 101. -/
theorem fast_search_goes_on_past_ceiling :
    MaxFilesToCheck < 101 ∧
    SearchEvent.Load (demoFs.file "y/foo.nes".toList) 101
      ∈ (FindMatchingRom matchEnv demoFs ["x/foo.zip".toList, "y/foo.nes".toList]
          "foo".toList strangerHash true).2.2 ∧
    verifiedOf (FindMatchingRom matchEnv demoFs ["x/foo.zip".toList, "y/foo.nes".toList]
        "foo".toList strangerHash true).2.2
      = ["x/foo.zip".toList, "y/foo.nes".toList] ∧
    (FindMatchingRom matchEnv demoFs ["x/foo.zip".toList, "y/foo.nes".toList]
        "foo".toList strangerHash true).2.1 = 102 := by
  decide

/-- C13, amended: in the slow search, once `iterationCount` exceeds the ceiling
of 100 the search stops at once. No candidate is verified and no byte source
is loaded with the counter above the ceiling, and a search that ends with the
counter above the ceiling returns the empty string, its last act being the
log line saying it gives up, whatever candidates remain. -/
theorem slow_search_stops_at_ceiling (env : Env) (fs : FileSystem)
    (romFiles : List (List Char)) (romFilename : List Char) (hashInfo : HashInfo) :
    (∀ k ∈ countsOf (FindMatchingRom env fs romFiles romFilename hashInfo false).2.2,
      k ≤ MaxFilesToCheck) ∧
    (MaxFilesToCheck < (FindMatchingRom env fs romFiles romFilename hashInfo false).2.1 →
      (FindMatchingRom env fs romFiles romFilename hashInfo false).1 = [] ∧
      (FindMatchingRom env fs romFiles romFilename hashInfo false).2.2.getLast?
        = some SearchEvent.GiveUp) := by
  have h := slow_withinBudget env fs hashInfo romFiles 0 (Nat.zero_le _)
  refine ⟨h.1.1, fun hgt => ⟨?_, h.2 hgt⟩⟩
  by_contra hne
  have := h.1.2 hne
  have hgt2 : MaxFilesToCheck < (FindMatchingRom.slow env fs hashInfo romFiles 0).2.1 := hgt
  omega

/-! ## The ceiling does not bound the number of loads -/

set_option maxRecDepth 100000 in
/-- C11, evaluated: the slow search over the single archive `big.zip`, whose
150 entries are all too short to load, calls `LoadFile` 150 times and ends
with `iterationCount` at 1; over `x/foo.zip`, whose entries all load without
matching, it calls `LoadFile` 101 times. -/
theorem slow_search_loads_more_than_ceiling :
    (loadsOf (FindMatchingRom demoEnv demoFs ["big.zip".toList] [] strangerHash false).2.2).length
      = 150 ∧
    (FindMatchingRom demoEnv demoFs ["big.zip".toList] [] strangerHash false).2.1 = 1 ∧
    (loadsOf (FindMatchingRom demoEnv demoFs ["x/foo.zip".toList] [] strangerHash false).2.2).length
      = 101 ∧
    MaxFilesToCheck = 100 := by
  decide

/-- C12, evaluated: verifying the archive `mix.zip` makes two loads, the first
of which fails, and raises `iterationCount` from 0 to 1 only; and in the slow
search a single plain file that does not match leaves the counter at 2. -/
theorem failed_entry_consumes_no_budget :
    (LoadFile demoEnv (RomLoader.create true)
      (demoFs.innerFile "mix.zip".toList "bad".toList)).1 = false ∧
    (loadsOf (FindMatchingRomInFile demoEnv demoFs "mix.zip".toList strangerHash 0).2.2).length
      = 2 ∧
    (FindMatchingRomInFile demoEnv demoFs "mix.zip".toList strangerHash 0).1 = [] ∧
    (FindMatchingRomInFile demoEnv demoFs "mix.zip".toList strangerHash 0).2.1 = 1 ∧
    (loadsOf (FindMatchingRom demoEnv demoFs ["a.nes".toList] [] strangerHash false).2.2).length
      = 1 ∧
    (FindMatchingRom demoEnv demoFs ["a.nes".toList] [] strangerHash false).2.1 = 2 := by
  decide

/-! ## The reads of the signature chain -/

theorem memcmpChecked_eq (buf pat : List Nat) (n : Nat) (hb : n ≤ buf.length)
    (hp : pat.length = n) : memcmpChecked buf pat n = some (decide (pat <+: buf)) := by
  unfold memcmpChecked
  rw [if_pos ⟨hb, by omega⟩, memcmp_eq_decide buf pat n hp]

theorem signatureChain_eq (fileData : List Nat) (hl : 15 ≤ fileData.length) :
    LoadFile.signatureChain fileData = some (selectParser signatureTable fileData) := by
  have m1 := memcmpChecked_eq fileData (bytes ['N', 'E', 'S'] ++ [0x1a]) 4 (by omega) (by decide)
  have m2 := memcmpChecked_eq fileData (bytes ['F', 'D', 'S'] ++ [0x1a]) 4 (by omega) (by decide)
  have m3 := memcmpChecked_eq fileData
    ([0x1] ++ bytes ['*', 'N', 'I', 'N', 'T', 'E', 'N', 'D', 'O', '-', 'H', 'V', 'C', '*']) 15
    (by omega) (by decide)
  have m4 := memcmpChecked_eq fileData (bytes ['N', 'E', 'S', 'M'] ++ [0x1a]) 5 (by omega)
    (by decide)
  have m5 := memcmpChecked_eq fileData (bytes ['N', 'S', 'F', 'E']) 4 (by omega) (by decide)
  have m6 := memcmpChecked_eq fileData (bytes ['U', 'N', 'I', 'F']) 4 (by omega) (by decide)
  have m7 := memcmpChecked_eq fileData (bytes ['S', 'T', 'B', 'X']) 4 (by omega) (by decide)
  unfold LoadFile.signatureChain
  simp only [m1, m2, m3, m4, m5, m6, m7,
    selectParser, signatureTable, List.find?, rowMatches, List.any_cons, List.any_nil,
    Bool.or_false]
  clear m1 m2 m3 m4 m5 m6 m7
  by_cases h1 : (bytes ['N', 'E', 'S'] ++ [0x1a]) <+: fileData
  · simp [h1]
  by_cases h2 : (bytes ['F', 'D', 'S'] ++ [0x1a]) <+: fileData
  · simp [h1, h2]
  by_cases h3 : (0x1 :: bytes ['*', 'N', 'I', 'N', 'T', 'E', 'N', 'D', 'O', '-', 'H', 'V', 'C', '*'])
      <+: fileData
  · simp [h1, h2, h3]
  by_cases h4 : (bytes ['N', 'E', 'S', 'M'] ++ [0x1a]) <+: fileData
  · simp [h1, h2, h3, h4]
  by_cases h5 : (bytes ['N', 'S', 'F', 'E']) <+: fileData
  · simp [h1, h2, h3, h4, h5]
  by_cases h6 : (bytes ['U', 'N', 'I', 'F']) <+: fileData
  · simp [h1, h2, h3, h4, h5, h6]
  by_cases h7 : (bytes ['S', 'T', 'B', 'X']) <+: fileData
  · simp [h1, h2, h3, h4, h5, h6, h7]
  · simp [h1, h2, h3, h4, h5, h6, h7]

/-- C19: for a buffer of at least 15 bytes, as the size check of `LoadFile`
guarantees, no comparison of the signature chain reads outside the buffer:
the chain with checked reads never fails and selects what the table lookup
selects. Every pattern compared has 4, 5 or 15 bytes, the longest exactly 15,
so each comparison stays inside the buffer. -/
theorem signature_reads_in_bounds (fileData : List Nat) (hl : 15 ≤ fileData.length) :
    LoadFile.signatureChain fileData = some (selectParser signatureTable fileData) ∧
    (∀ row ∈ signatureTable, ∀ pat ∈ row.1,
      (pat.length = 4 ∨ pat.length = 5 ∨ pat.length = 15) ∧
      pat.length ≤ fileData.length ∧
      memcmpChecked fileData pat pat.length = some (decide (pat <+: fileData))) ∧
    (∃ row ∈ signatureTable, ∃ pat ∈ row.1, pat.length = 15) ∧
    ([0x1] ++ bytes ['*', 'N', 'I', 'N', 'T', 'E', 'N', 'D', 'O', '-', 'H', 'V', 'C', '*']).length
      = 15 := by
  have hlen : ∀ row ∈ signatureTable, ∀ pat ∈ row.1,
      pat.length = 4 ∨ pat.length = 5 ∨ pat.length = 15 := by decide
  refine ⟨signatureChain_eq fileData hl, fun row hrow pat hpat => ?_, by decide, by decide⟩
  have h := hlen row hrow pat hpat
  have hle : pat.length ≤ fileData.length := by omega
  exact ⟨h, hle, memcmpChecked_eq fileData pat pat.length hle rfl⟩

/-- A concrete instance: on the 16-byte cartridge image the checked chain
selects the cartridge loader, while on a four-byte buffer that starts like the
15-byte pattern the chain reads outside the buffer. -/
theorem signature_reads_in_bounds_witness :
    15 ≤ nesFile.data.length ∧
    LoadFile.signatureChain nesFile.data = some (selectParser signatureTable nesFile.data) ∧
    selectParser signatureTable nesFile.data = some Parser.iNes ∧
    LoadFile.signatureChain [0x1, 0x2a, 0x4e, 0x49] = none :=
  ⟨by decide, (signature_reads_in_bounds nesFile.data (by decide)).1, by decide, by decide⟩

/-! ## The name filter of the fast search -/

theorem nameFilter_eq (env : Env) (romFilename c : List Char) :
    ((find (tolower c) (tolower romFilename)).isSome
      && decide (env.GetFilename (tolower romFilename) true = env.GetFilename (tolower c) true))
      = passesNameFilter env romFilename c := by
  unfold passesNameFilter
  rw [Bool.eq_iff_iff]
  simp only [Bool.and_eq_true, decide_eq_true_eq, find_isSome_iff]
  exact ⟨fun h => ⟨h.1, h.2.symm⟩, fun h => ⟨h.1, h.2.symm⟩⟩

theorem entries_verifiedOf (env : Env) (fs : FileSystem) (c : List Char) (hashInfo : HashInfo)
    (es : List (List Char)) :
    ∀ n, verifiedOf (FindMatchingRomInFile.entries env fs c hashInfo es n).2.2 = [] := by
  induction es with
  | nil => intro n; rfl
  | cons e rest ih =>
    intro n
    rcases entry_cases env hashInfo (fs.innerFile c e) with ⟨hf, _⟩ | hm | ⟨hok, hno, _⟩
    · rw [entries_cons_failed env fs c hashInfo e rest n hf]
      exact ih n
    · rw [entries_cons_match env fs c hashInfo e rest n hm]
      rfl
    · rw [entries_cons_loaded env fs c hashInfo e rest n hok hno]
      split
      · rfl
      · exact ih (n + 1)

theorem entries_loads (env : Env) (fs : FileSystem) (c : List Char) (hashInfo : HashInfo)
    (es : List (List Char)) :
    ∀ n, ∀ f ∈ loadsOf (FindMatchingRomInFile.entries env fs c hashInfo es n).2.2,
      ∃ e, f = fs.innerFile c e := by
  induction es with
  | nil => intro n f hf; simp [FindMatchingRomInFile.entries, loadsOf] at hf
  | cons e rest ih =>
    intro n f hf
    have hcons : ∀ k, f ∈ loadsOf (SearchEvent.Load (fs.innerFile c e) n
        :: (FindMatchingRomInFile.entries env fs c hashInfo rest k).2.2) →
        ∃ e2, f = fs.innerFile c e2 := by
      intro k hk
      have hk2 : f ∈ loadsOf ([SearchEvent.Load (fs.innerFile c e) n]
          ++ (FindMatchingRomInFile.entries env fs c hashInfo rest k).2.2) := hk
      rw [loadsOf_append] at hk2
      rcases List.mem_append.mp hk2 with h1 | h1
      · simp [loadsOf] at h1
        exact ⟨e, h1⟩
      · exact ih k f h1
    have hone : f ∈ loadsOf [SearchEvent.Load (fs.innerFile c e) n] →
        ∃ e2, f = fs.innerFile c e2 := by
      intro h1
      simp [loadsOf] at h1
      exact ⟨e, h1⟩
    rcases entry_cases env hashInfo (fs.innerFile c e) with ⟨hfl, _⟩ | hm | ⟨hok, hno, _⟩
    · rw [entries_cons_failed env fs c hashInfo e rest n hfl] at hf
      exact hcons n hf
    · rw [entries_cons_match env fs c hashInfo e rest n hm] at hf
      exact hone hf
    · rw [entries_cons_loaded env fs c hashInfo e rest n hok hno] at hf
      split at hf
      · exact hone hf
      · exact hcons (n + 1) hf

theorem FindMatchingRomInFile_verifiedOf (env : Env) (fs : FileSystem) (c : List Char)
    (hashInfo : HashInfo) (n : Nat) :
    verifiedOf (FindMatchingRomInFile env fs c hashInfo n).2.2 = [c] := by
  cases hr : fs.GetReader c with
  | none =>
    rw [FindMatchingRomInFile_plain env fs c hashInfo n hr]
    split <;> rfl
  | some reader =>
    rw [FindMatchingRomInFile_archive env fs c hashInfo n reader hr]
    show verifiedOf ([SearchEvent.Verify c n]
      ++ (FindMatchingRomInFile.entries env fs c hashInfo reader.GetFileList n).2.2) = [c]
    rw [verifiedOf_append, entries_verifiedOf]
    rfl

theorem FindMatchingRomInFile_loads (env : Env) (fs : FileSystem) (c : List Char)
    (hashInfo : HashInfo) (n : Nat) :
    ∀ f ∈ loadsOf (FindMatchingRomInFile env fs c hashInfo n).2.2,
      f = fs.file c ∨ ∃ e, f = fs.innerFile c e := by
  intro f hf
  cases hr : fs.GetReader c with
  | none =>
    rw [FindMatchingRomInFile_plain env fs c hashInfo n hr] at hf
    split at hf <;> simp [loadsOf] at hf <;> exact Or.inl hf
  | some reader =>
    rw [FindMatchingRomInFile_archive env fs c hashInfo n reader hr] at hf
    have hf2 : f ∈ loadsOf ([SearchEvent.Verify c n]
        ++ (FindMatchingRomInFile.entries env fs c hashInfo reader.GetFileList n).2.2) := hf
    rw [loadsOf_append] at hf2
    rcases List.mem_append.mp hf2 with h1 | h1
    · simp [loadsOf] at h1
    · exact Or.inr (entries_loads env fs c hashInfo reader.GetFileList n f h1)

theorem fast_verified (env : Env) (fs : FileSystem) (romFilename : List Char)
    (hashInfo : HashInfo) (cands : List (List Char)) :
    ∀ n,
      verifiedOf (FindMatchingRom.fast env fs (tolower romFilename) hashInfo cands n).2.2
        <+: cands.filter (passesNameFilter env romFilename) ∧
      ((FindMatchingRom.fast env fs (tolower romFilename) hashInfo cands n).1 = [] →
        verifiedOf (FindMatchingRom.fast env fs (tolower romFilename) hashInfo cands n).2.2
          = cands.filter (passesNameFilter env romFilename)) ∧
      (∀ f ∈ loadsOf (FindMatchingRom.fast env fs (tolower romFilename) hashInfo cands n).2.2,
        ∃ c ∈ cands, passesNameFilter env romFilename c = true ∧
          (f = fs.file c ∨ ∃ e, f = fs.innerFile c e)) := by
  induction cands with
  | nil =>
    intro n
    refine ⟨?_, fun _ => rfl, fun f hf => ?_⟩
    · exact List.prefix_refl _
    · simp [FindMatchingRom.fast, loadsOf] at hf
  | cons c rest ih =>
    intro n
    rw [FindMatchingRom.fast, nameFilter_eq]
    have hlift : ∀ f, (∃ c2 ∈ rest, passesNameFilter env romFilename c2 = true ∧
          (f = fs.file c2 ∨ ∃ e, f = fs.innerFile c2 e)) →
        ∃ c2 ∈ c :: rest, passesNameFilter env romFilename c2 = true ∧
          (f = fs.file c2 ∨ ∃ e, f = fs.innerFile c2 e) :=
      fun f ⟨c2, h1, h2⟩ => ⟨c2, List.mem_cons_of_mem _ h1, h2⟩
    by_cases hp : passesNameFilter env romFilename c = true
    · rw [if_pos hp, List.filter_cons_of_pos hp]
      dsimp only
      have hv := FindMatchingRomInFile_verifiedOf env fs c hashInfo n
      have hlo : ∀ f ∈ loadsOf (FindMatchingRomInFile env fs c hashInfo n).2.2,
          ∃ c2 ∈ c :: rest, passesNameFilter env romFilename c2 = true ∧
            (f = fs.file c2 ∨ ∃ e, f = fs.innerFile c2 e) :=
        fun f hf => ⟨c, List.mem_cons_self _ _, hp,
          FindMatchingRomInFile_loads env fs c hashInfo n f hf⟩
      split
      · rename_i hne
        refine ⟨?_, fun he => ?_, hlo⟩
        · rw [hv]
          exact (List.prefix_cons_inj c).mpr List.nil_prefix
        · exact absurd he ((isEmpty_eq_false_iff _).mp hne)
      · obtain ⟨h1, h2, h3⟩ := ih (FindMatchingRomInFile env fs c hashInfo n).2.1
        have hvv : ∀ (evs : List SearchEvent),
            verifiedOf ((FindMatchingRomInFile env fs c hashInfo n).2.2 ++ evs)
              = c :: verifiedOf evs := by
          intro evs
          rw [verifiedOf_append, hv]
          rfl
        refine ⟨?_, fun he => ?_, fun f hf => ?_⟩
        · show verifiedOf ((FindMatchingRomInFile env fs c hashInfo n).2.2 ++ _) <+: _
          rw [hvv]
          exact (List.prefix_cons_inj c).mpr h1
        · show verifiedOf ((FindMatchingRomInFile env fs c hashInfo n).2.2 ++ _) = _
          rw [hvv, h2 he]
        · have hf2 : f ∈ loadsOf ((FindMatchingRomInFile env fs c hashInfo n).2.2
              ++ (FindMatchingRom.fast env fs (tolower romFilename) hashInfo rest
                (FindMatchingRomInFile env fs c hashInfo n).2.1).2.2) := hf
          rw [loadsOf_append] at hf2
          rcases List.mem_append.mp hf2 with h4 | h4
          · exact hlo f h4
          · exact hlift f (h3 f h4)
    · rw [if_neg hp, List.filter_cons_of_neg hp]
      obtain ⟨h1, h2, h3⟩ := ih n
      exact ⟨h1, h2, fun f hf => hlift f (h3 f hf)⟩

theorem fast_last_verified (env : Env) (fs : FileSystem) (romFilename : List Char)
    (hashInfo : HashInfo) (cands : List (List Char)) :
    ∀ n, (FindMatchingRom.fast env fs (tolower romFilename) hashInfo cands n).1 ≠ [] →
      ∃ pre c k,
        verifiedOf (FindMatchingRom.fast env fs (tolower romFilename) hashInfo cands n).2.2
          = pre ++ [c] ∧
        c ∈ cands ∧
        (FindMatchingRomInFile env fs c hashInfo k).1
          = (FindMatchingRom.fast env fs (tolower romFilename) hashInfo cands n).1 := by
  induction cands with
  | nil => intro n hne; exact absurd rfl hne
  | cons c rest ih =>
    intro n
    rw [FindMatchingRom.fast]
    have hv := FindMatchingRomInFile_verifiedOf env fs c hashInfo n
    split
    · dsimp only
      split
      · intro _
        exact ⟨[], c, n, hv, List.mem_cons_self _ _, rfl⟩
      · intro hne
        obtain ⟨pre, c2, k, h1, h2, h3⟩ :=
          ih (FindMatchingRomInFile env fs c hashInfo n).2.1 hne
        refine ⟨c :: pre, c2, k, ?_, List.mem_cons_of_mem _ h2, h3⟩
        show verifiedOf ((FindMatchingRomInFile env fs c hashInfo n).2.2 ++ _) = _
        rw [verifiedOf_append, hv, h1]
        rfl
    · intro hne
      obtain ⟨pre, c2, k, h1, h2, h3⟩ := ih n hne
      exact ⟨pre, c2, k, h1, List.mem_cons_of_mem _ h2, h3⟩

/-- C16, as stated, fails. The base-name test is not an exact comparison: for
the name `foo.nes` the candidate `a/FOO.nes` is verified and loaded although
its base name `FOO` is not that of `foo.nes`, because the code compares the
base names of the lower-cased strings. And a candidate that passes the filter
is not verified once an earlier one has matched: of `a/foo.nes` and
`b/foo.nes`, both passing, only the first is verified when it matches. -/
theorem fast_search_name_test_not_exact :
    baseName "a/FOO.nes".toList ≠ baseName "foo.nes".toList ∧
    specNameFilter matchEnv "foo.nes".toList "a/FOO.nes".toList = false ∧
    verifiedOf (FindMatchingRom matchEnv demoFs ["a/FOO.nes".toList] "foo.nes".toList
        strangerHash true).2.2 = ["a/FOO.nes".toList] ∧
    loadsOf (FindMatchingRom matchEnv demoFs ["a/FOO.nes".toList] "foo.nes".toList
        strangerHash true).2.2 = [demoFs.file "a/FOO.nes".toList] ∧
    specNameFilter matchEnv "foo.nes".toList "b/foo.nes".toList = true ∧
    passesNameFilter matchEnv "foo.nes".toList "b/foo.nes".toList = true ∧
    verifiedOf (FindMatchingRom matchEnv demoFs ["a/foo.nes".toList, "b/foo.nes".toList]
        "foo.nes".toList crcOnlyHash true).2.2 = ["a/foo.nes".toList] := by
  decide

/-- C16, amended: in the fast search the candidates verified are the
candidates that pass the name test on the lower-cased strings (the lower-cased
path contains the lower-cased `romFilename`, and `GetFilename(.., true)` gives
both lower-cased strings the same base name), in list order, up to the one
that yields a match: the verified candidates are an initial part of the
filtered list, all of it when the search returns no match, and when a match
is returned the candidate verified last is the one whose verification gave
it. No byte source outside the filtered candidates is ever loaded. For the
candidates `a/Foo (E).nes`, `b/Bar.nes` and the name `Foo (E).nes`, with base
names as the specification describes them, only the first candidate is
verified, whatever the target. -/
theorem fast_search_verifies_filtered (env : Env) (fs : FileSystem)
    (romFiles : List (List Char)) (romFilename : List Char) (hashInfo : HashInfo) :
    verifiedOf (FindMatchingRom env fs romFiles romFilename hashInfo true).2.2
      <+: romFiles.filter (passesNameFilter env romFilename) ∧
    ((FindMatchingRom env fs romFiles romFilename hashInfo true).1 = [] →
      verifiedOf (FindMatchingRom env fs romFiles romFilename hashInfo true).2.2
        = romFiles.filter (passesNameFilter env romFilename)) ∧
    (∀ f ∈ loadsOf (FindMatchingRom env fs romFiles romFilename hashInfo true).2.2,
      ∃ c ∈ romFiles, passesNameFilter env romFilename c = true ∧
        (f = fs.file c ∨ ∃ e, f = fs.innerFile c e)) ∧
    ((FindMatchingRom env fs romFiles romFilename hashInfo true).1 ≠ [] →
      ∃ pre c k,
        verifiedOf (FindMatchingRom env fs romFiles romFilename hashInfo true).2.2
          = pre ++ [c] ∧
        c ∈ romFiles ∧
        (FindMatchingRomInFile env fs c hashInfo k).1
          = (FindMatchingRom env fs romFiles romFilename hashInfo true).1) ∧
    verifiedOf (FindMatchingRom (({ env with GetFilename := fun path _ => baseName path }) : Env)
        fs ["a/Foo (E).nes".toList, "b/Bar.nes".toList] "Foo (E).nes".toList hashInfo true).2.2
      = ["a/Foo (E).nes".toList] := by
  refine ⟨(fast_verified env fs romFilename hashInfo romFiles 0).1,
    (fast_verified env fs romFilename hashInfo romFiles 0).2.1,
    (fast_verified env fs romFilename hashInfo romFiles 0).2.2,
    fast_last_verified env fs romFilename hashInfo romFiles 0, ?_⟩
  have h1 : ((find (tolower "a/Foo (E).nes".toList) (tolower "Foo (E).nes".toList)).isSome
      && decide (baseName (tolower "Foo (E).nes".toList)
          = baseName (tolower "a/Foo (E).nes".toList))) = true := by decide
  have h2 : ((find (tolower "b/Bar.nes".toList) (tolower "Foo (E).nes".toList)).isSome
      && decide (baseName (tolower "Foo (E).nes".toList)
          = baseName (tolower "b/Bar.nes".toList))) = false := by decide
  unfold FindMatchingRom
  simp only [if_true, FindMatchingRom.fast, h1, h2, Bool.false_eq_true, if_false]
  split
  · exact FindMatchingRomInFile_verifiedOf _ fs _ hashInfo 0
  · show verifiedOf ((FindMatchingRomInFile _ fs _ hashInfo 0).2.2 ++ []) = _
    rw [List.append_nil]
    exact FindMatchingRomInFile_verifiedOf _ fs _ hashInfo 0

end Mesen
